import Mathlib

/-!
# gophish: a verification development

A shallow embedding of `gophish.go` (a client for the Phish.Net API) together with
the library behaviour it relies on (`encoding/json`, `go-querystring`, `net/url`,
`net/http`, `time`, `strconv`, `github.com/pkg/errors`).

Conventions of the embedding:

* Go `string` is `String`; Go `int` is `Int`, on a platform where `int` has 64 bits
  (range conditions are explicit wherever the code checks them, and 64-bit arithmetic
  wraps around where it can overflow).
* A pointer `*T` is `Option T` (`none` is `nil`); a slice `[]T` is `List T`
  (a nil slice and an empty slice are both `[]`).
* A Go `error` result is `Option Error` (`none` is `nil`).
* An HTTP body is a `String`, that is, a body that is valid UTF-8.
* A call that can block forever returns an `Option` (`none`: it never returns).
* An instant is a `Nat`, in nanoseconds; the channel of `time.Tick` in time is modelled
  with its buffer of one value (`time.Ticker`, `Client.DoTimes`).
* What the program does not define itself is modelled from the library it calls; the
  float parser, the URL parser and the HTTP transport are parameters (`Env`).
-/

namespace strconv

/-- Decimal digits of `n`, most significant first, prepended to `acc`. -/
def formatDigits : Nat → Nat → List Char → List Char
  | 0, _, acc => acc
  | fuel + 1, n, acc =>
    if n < 10 then Char.ofNat (48 + n) :: acc
    else formatDigits fuel (n / 10) (Char.ofNat (48 + n % 10) :: acc)

/-- Model of `strconv.FormatUint(n, 10)`. -/
def FormatUint (n : Nat) : String := String.mk (formatDigits (n + 1) n [])

/-- Model of `strconv.Itoa`, which is also how `fmt.Sprint` prints an `int`. -/
def Itoa (i : Int) : String :=
  if i < 0 then String.mk ('-' :: formatDigits (i.natAbs + 1) i.natAbs [])
  else FormatUint i.natAbs

/-- Value of a run of decimal digits; `none` when a character is not a digit. -/
def parseDigits : List Char → Nat → Option Nat
  | [], acc => some acc
  | c :: cs, acc =>
    if '0' ≤ c && c ≤ '9' then parseDigits cs (acc * 10 + (c.toNat - 48)) else none

/-- Model of `strconv.ParseInt(s, 10, 64)`: an optional sign, at least one digit,
and a value that fits in 64 bits; `none` stands for the error result. -/
def ParseInt (s : String) : Option Int :=
  let signed : Option Int :=
    match s.toList with
    | [] => none
    | '+' :: [] => none
    | '-' :: [] => none
    | '+' :: cs => (parseDigits cs 0).map fun n => Int.ofNat n
    | '-' :: cs => (parseDigits cs 0).map fun n => -Int.ofNat n
    | cs => (parseDigits cs 0).map fun n => Int.ofNat n
  match signed with
  | none => none
  | some v => if -(2 : Int) ^ 63 ≤ v ∧ v < (2 : Int) ^ 63 then some v else none

end strconv

namespace json

/-- A parsed JSON document. Numbers keep their literal text. -/
inductive Value where
  | null : Value
  | bool (b : Bool) : Value
  | number (lit : String) : Value
  | string (s : String) : Value
  | array (elems : List Value) : Value
  | object (members : List (String × Value)) : Value

def isSpace (c : Char) : Bool :=
  c == ' ' || c == '\t' || c == '\r' || c == '\n'

def skipSpace : List Char → List Char
  | [] => []
  | c :: cs => if isSpace c then skipSpace cs else c :: cs

def isDigit (c : Char) : Bool := '0' ≤ c && c ≤ '9'

def spanDigits : List Char → List Char × List Char
  | [] => ([], [])
  | c :: cs =>
    if isDigit c then
      let r := spanDigits cs
      (c :: r.1, r.2)
    else ([], c :: cs)

def scanFrac (cs : List Char) : Option (List Char × List Char) :=
  match cs with
  | '.' :: rest =>
    match spanDigits rest with
    | ([], _) => none
    | (ds, rest2) => some ('.' :: ds, rest2)
  | _ => some ([], cs)

def scanExpDigits (mark : List Char) (cs : List Char) : Option (List Char × List Char) :=
  match spanDigits cs with
  | ([], _) => none
  | (ds, rest) => some (mark ++ ds, rest)

def scanExp (cs : List Char) : Option (List Char × List Char) :=
  match cs with
  | 'e' :: '+' :: rest => scanExpDigits ['e', '+'] rest
  | 'e' :: '-' :: rest => scanExpDigits ['e', '-'] rest
  | 'E' :: '+' :: rest => scanExpDigits ['E', '+'] rest
  | 'E' :: '-' :: rest => scanExpDigits ['E', '-'] rest
  | 'e' :: rest => scanExpDigits ['e'] rest
  | 'E' :: rest => scanExpDigits ['E'] rest
  | _ => some ([], cs)

def scanInt (cs : List Char) : Option (List Char × List Char) :=
  match cs with
  | '0' :: rest => some (['0'], rest)
  | c :: rest =>
    if isDigit c then
      let r := spanDigits rest
      some (c :: r.1, r.2)
    else none
  | [] => none

def scanUnsigned (cs : List Char) : Option (List Char × List Char) :=
  match scanInt cs with
  | none => none
  | some (i, r1) =>
    match scanFrac r1 with
    | none => none
    | some (f, r2) =>
      match scanExp r2 with
      | none => none
      | some (e, r3) => some (i ++ f ++ e, r3)

def scanNumber (cs : List Char) : Option (List Char × List Char) :=
  match cs with
  | '-' :: rest =>
    match scanUnsigned rest with
    | none => none
    | some (l, r) => some ('-' :: l, r)
  | _ => scanUnsigned cs

def hexVal (c : Char) : Option Nat :=
  if '0' ≤ c && c ≤ '9' then some (c.toNat - 48)
  else if 'a' ≤ c && c ≤ 'f' then some (c.toNat - 87)
  else if 'A' ≤ c && c ≤ 'F' then some (c.toNat - 55)
  else none

/-- Model of getu4: the code unit of a leading backslash-u escape. -/
def getu4 (cs : List Char) : Option Nat :=
  match cs with
  | b :: 'u' :: h1 :: h2 :: h3 :: h4 :: _ =>
    if b == Char.ofNat 92 then
      match hexVal h1, hexVal h2, hexVal h3, hexVal h4 with
      | some a, some b, some c, some d => some (((a * 16 + b) * 16 + c) * 16 + d)
      | _, _, _, _ => none
    else none
  | _ => none

def isSurrogate (r : Nat) : Bool := 0xd800 ≤ r && r < 0xe000

def replacementChar : Char := Char.ofNat 0xfffd

/-- Model of utf16.DecodeRune on an optional second unit. -/
def decodeSurrogates (r1 : Nat) (r2 : Option Nat) : Option Char :=
  match r2 with
  | some r2 =>
    if 0xd800 ≤ r1 && r1 < 0xdc00 && 0xdc00 ≤ r2 && r2 < 0xe000 then
      some (Char.ofNat ((r1 - 0xd800) * 1024 + (r2 - 0xdc00) + 0x10000))
    else none
  | none => none

/-- Scans the inside of a string literal (after the opening quote), unquoting it. -/
def scanString : Nat → List Char → List Char → Option (String × List Char)
  | 0, _, _ => none
  | fuel + 1, acc, cs =>
    match cs with
    | [] => none
    | c :: rest =>
      if c == '"' then some (String.mk acc.reverse, rest)
      else if c == Char.ofNat 92 then
        match rest with
        | [] => none
        | e :: rest2 =>
          if e == '"' then scanString fuel ('"' :: acc) rest2
          else if e == Char.ofNat 92 then scanString fuel (Char.ofNat 92 :: acc) rest2
          else if e == '/' then scanString fuel ('/' :: acc) rest2
          else if e == 'b' then scanString fuel (Char.ofNat 8 :: acc) rest2
          else if e == 'f' then scanString fuel (Char.ofNat 12 :: acc) rest2
          else if e == 'n' then scanString fuel ('\n' :: acc) rest2
          else if e == 'r' then scanString fuel ('\r' :: acc) rest2
          else if e == 't' then scanString fuel ('\t' :: acc) rest2
          else if e == 'u' then
            match getu4 cs with
            | none => none
            | some rr =>
              let rest6 := rest2.drop 4
              if isSurrogate rr then
                match decodeSurrogates rr (getu4 rest6) with
                | some dec => scanString fuel (dec :: acc) (rest6.drop 6)
                | none => scanString fuel (replacementChar :: acc) rest6
              else scanString fuel (Char.ofNat rr :: acc) rest6
          else none
      else if c.toNat < 0x20 then none
      else scanString fuel (c :: acc) rest

def matchWord (w : List Char) (cs : List Char) : Option (List Char) :=
  if w.isPrefixOf cs then some (cs.drop w.length) else none

mutual
/-- Parses one value, returning it with the unread input. -/
def parseValue : Nat → List Char → Option (Value × List Char)
  | 0, _ => none
  | fuel + 1, cs =>
    match skipSpace cs with
    | [] => none
    | c :: rest =>
      if c == '{' then
        match skipSpace rest with
        | '}' :: rest2 => some (Value.object [], rest2)
        | _ => (parseMembers fuel rest).map fun r => (Value.object r.1, r.2)
      else if c == '[' then
        match skipSpace rest with
        | ']' :: rest2 => some (Value.array [], rest2)
        | _ => (parseElems fuel rest).map fun r => (Value.array r.1, r.2)
      else if c == '"' then
        (scanString (rest.length + 1) [] rest).map fun r => (Value.string r.1, r.2)
      else if c == 't' then (matchWord "true".toList (c :: rest)).map fun r => (Value.bool true, r)
      else if c == 'f' then (matchWord "false".toList (c :: rest)).map fun r => (Value.bool false, r)
      else if c == 'n' then (matchWord "null".toList (c :: rest)).map fun r => (Value.null, r)
      else (scanNumber (c :: rest)).map fun r => (Value.number (String.mk r.1), r.2)
/-- Parses the elements of a non-empty array, up to and including the closing bracket. -/
def parseElems : Nat → List Char → Option (List Value × List Char)
  | 0, _ => none
  | fuel + 1, cs =>
    match parseValue fuel cs with
    | none => none
    | some (v, rest) =>
      match skipSpace rest with
      | ',' :: rest2 => (parseElems fuel rest2).map fun r => (v :: r.1, r.2)
      | ']' :: rest2 => some ([v], rest2)
      | _ => none
/-- Parses the members of a non-empty object, up to and including the closing brace. -/
def parseMembers : Nat → List Char → Option (List (String × Value) × List Char)
  | 0, _ => none
  | fuel + 1, cs =>
    match skipSpace cs with
    | '"' :: rest =>
      match scanString (rest.length + 1) [] rest with
      | none => none
      | some (k, rest2) =>
        match skipSpace rest2 with
        | ':' :: rest3 =>
          match parseValue fuel rest3 with
          | none => none
          | some (v, rest4) =>
            match skipSpace rest4 with
            | ',' :: rest5 => (parseMembers fuel rest5).map fun r => ((k, v) :: r.1, r.2)
            | '}' :: rest5 => some ([(k, v)], rest5)
            | _ => none
        | _ => none
    | _ => none
end

/-- Model of the scanner (`checkValid`): `none` is a `*json.SyntaxError`. Every call
below consumes input, so the length of the input is enough fuel; the limit that newer
versions of the library put on the nesting depth (10000) is not modelled. -/
def parse (data : String) : Option Value :=
  match parseValue (data.length + 1) data.toList with
  | none => none
  | some (v, rest) =>
    match skipSpace rest with
    | [] => some v
    | _ => none

end json


namespace json

/-- Model of `*json.UnmarshalTypeError`: a JSON value that does not fit a Go type. -/
structure UnmarshalTypeError where
  value : String
  goType : String
deriving DecidableEq, Repr

/-- The error result of `json.Unmarshal`. -/
inductive UnmarshalError where
  | malformed : UnmarshalError
  | mismatch (e : UnmarshalTypeError) : UnmarshalError
deriving DecidableEq, Repr

/-- A decoder into a destination of Go type `α`: `decodeState.value` specialised to one
type. It returns the destination after the call and the error it saved, if any; after a
type mismatch the decoder carries on with the rest of the document. -/
abbrev Dec (α : Type) := Value → α → α × Option UnmarshalTypeError

/-- Model of `decodeState.saveError`: only the first error is kept. -/
def firstError (a b : Option UnmarshalTypeError) : Option UnmarshalTypeError :=
  match a with
  | some e => some e
  | none => b

/-- Decoding into an `int`. -/
def decodeInt : Dec Int
  | .null, x => (x, none)
  | .number lit, x =>
    match strconv.ParseInt lit with
    | some n => (n, none)
    | none => (x, some ⟨"number " ++ lit, "int"⟩)
  | .string _, x => (x, some ⟨"string", "int"⟩)
  | .bool _, x => (x, some ⟨"bool", "int"⟩)
  | .array _, x => (x, some ⟨"array", "int"⟩)
  | .object _, x => (x, some ⟨"object", "int"⟩)

/-- Decoding into a `string`. -/
def decodeString : Dec String
  | .null, x => (x, none)
  | .string s, _ => (s, none)
  | .number _, x => (x, some ⟨"number", "string"⟩)
  | .bool _, x => (x, some ⟨"bool", "string"⟩)
  | .array _, x => (x, some ⟨"array", "string"⟩)
  | .object _, x => (x, some ⟨"object", "string"⟩)

/-- Decoding into a pointer `*T`: `null` sets it to nil; any other value is decoded into
the pointee, which `indirect` allocates (as the zero value) when the pointer is nil. -/
def decodePtr {α : Type} (zero : α) (inner : Dec α) : Dec (Option α)
  | .null, _ => (none, none)
  | v, p =>
    let r := inner v (p.getD zero)
    (some r.1, r.2)

/-- Element loop of `decodeState.array` for a slice: element `i` is decoded into the
existing element `i`, or into a zero value beyond the current length (as for a slice
that has never been longer, which is the case of a destination that starts as zero). -/
def decodeElems {α : Type} (zero : α) (inner : Dec α) :
    List Value → List α → List α × Option UnmarshalTypeError
  | [], _ => ([], none)
  | v :: vs, old =>
    let r := inner v (old.headD zero)
    let rs := decodeElems zero inner vs old.tail
    (r.1 :: rs.1, firstError r.2 rs.2)

/-- Decoding into a slice `[]T`. -/
def decodeSlice {α : Type} (typeName : String) (zero : α) (inner : Dec α) : Dec (List α)
  | .null, _ => ([], none)
  | .array elems, old => decodeElems zero inner elems old
  | .number _, x => (x, some ⟨"number", typeName⟩)
  | .string _, x => (x, some ⟨"string", typeName⟩)
  | .bool _, x => (x, some ⟨"bool", typeName⟩)
  | .object _, x => (x, some ⟨"object", typeName⟩)

/-- Case folding used to match object keys against field names. For the ASCII field
names of this program two runes fold together when they are the same letter in either
case, or the Kelvin sign with `k`, or the long s with `s`. -/
def foldRune (c : Char) : Char :=
  if 'A' ≤ c && c ≤ 'Z' then Char.ofNat (c.toNat + 32)
  else if c == Char.ofNat 0x212a then 'k'
  else if c == Char.ofNat 0x17f then 's'
  else c

/-- Model of the `equalFold` test of a field name against a key. -/
def equalFold (name key : String) : Bool :=
  name.toList.map foldRune == key.toList.map foldRune

/-- Field lookup of `decodeState.object`: an exact match wins, otherwise the first field
whose name equals the key under case folding. -/
def findField {β : Type} (fields : List (String × β)) (key : String) : Option β :=
  match fields.find? (fun f => f.1 == key) with
  | some f => some f.2
  | none => (fields.find? (fun f => equalFold f.1 key)).map Prod.snd

/-- Member loop of `decodeState.object` for a struct: members are handled in document
order, each into the field its key selects; other members are skipped. -/
def decodeMembers {α : Type} (fields : List (String × Dec α)) :
    List (String × Value) → α → α × Option UnmarshalTypeError
  | [], x => (x, none)
  | (k, v) :: rest, x =>
    match findField fields k with
    | none => decodeMembers fields rest x
    | some d =>
      let r := d v x
      let rs := decodeMembers fields rest r.1
      (rs.1, firstError r.2 rs.2)

/-- Decoding into a struct with the given `json`-tagged fields. -/
def decodeStruct {α : Type} (typeName : String) (fields : List (String × Dec α)) : Dec α
  | .null, x => (x, none)
  | .object members, x => decodeMembers fields members x
  | .number _, x => (x, some ⟨"number", typeName⟩)
  | .string _, x => (x, some ⟨"string", typeName⟩)
  | .bool _, x => (x, some ⟨"bool", typeName⟩)
  | .array _, x => (x, some ⟨"array", typeName⟩)

/-- A value of type `interface{}` as `encoding/json` produces it. `F` is the type of
`float64` values. -/
inductive Iface (F : Type) where
  | nil : Iface F
  | bool (b : Bool) : Iface F
  | float64 (f : F) : Iface F
  | string (s : String) : Iface F
  | slice (elems : List (Iface F)) : Iface F
  | map (entries : List (String × Iface F)) : Iface F

/-- Model of `m[key] = v` on a map kept as a list of entries with distinct keys. -/
def setMapIndex {β : Type} : List (String × β) → String → β → List (String × β)
  | [], k, v => [(k, v)]
  | (k', v') :: rest, k, v =>
    if k' == k then (k, v) :: rest else (k', v') :: setMapIndex rest k v

mutual
/-- Model of `decodeState.valueInterface`. `parseFloat` is `strconv.ParseFloat(s, 64)`,
with `none` for its range error, after which the number is stored as nil. -/
def toIface {F : Type} (parseFloat : String → Option F) :
    Value → Iface F × Option UnmarshalTypeError
  | .null => (Iface.nil, none)
  | .bool b => (Iface.bool b, none)
  | .number lit =>
    match parseFloat lit with
    | some f => (Iface.float64 f, none)
    | none => (Iface.nil, some ⟨"number " ++ lit, "float64"⟩)
  | .string s => (Iface.string s, none)
  | .array elems =>
    let r := toIfaceElems parseFloat elems
    (Iface.slice r.1, r.2)
  | .object members =>
    let r := toIfaceMembers parseFloat members []
    (Iface.map r.1, r.2)
/-- Model of `decodeState.arrayInterface`. -/
def toIfaceElems {F : Type} (parseFloat : String → Option F) :
    List Value → List (Iface F) × Option UnmarshalTypeError
  | [] => ([], none)
  | v :: vs =>
    let r := toIface parseFloat v
    let rs := toIfaceElems parseFloat vs
    (r.1 :: rs.1, firstError r.2 rs.2)
/-- Model of `decodeState.objectInterface`, and of the member loop of
`decodeState.object` for a `map[string]interface{}` that already holds `m`. -/
def toIfaceMembers {F : Type} (parseFloat : String → Option F) :
    List (String × Value) → List (String × Iface F) →
      List (String × Iface F) × Option UnmarshalTypeError
  | [], m => (m, none)
  | (k, v) :: rest, m =>
    let r := toIface parseFloat v
    let rs := toIfaceMembers parseFloat rest (setMapIndex m k r.1)
    (rs.1, firstError r.2 rs.2)
end

/-- Decoding into a `map[string]interface{}` (a nil map and an empty map are both `[]`). -/
def decodeMap {F : Type} (parseFloat : String → Option F) : Dec (List (String × Iface F))
  | .null, _ => ([], none)
  | .object members, m => toIfaceMembers parseFloat members m
  | .number _, x => (x, some ⟨"number", "map[string]interface {}"⟩)
  | .string _, x => (x, some ⟨"string", "map[string]interface {}"⟩)
  | .bool _, x => (x, some ⟨"bool", "map[string]interface {}"⟩)
  | .array _, x => (x, some ⟨"array", "map[string]interface {}"⟩)

/-- Model of `json.Unmarshal(data, &dest)` for the destination type decoded by `dec`:
a document that does not scan leaves the destination untouched; otherwise the value is
decoded and the first saved error is returned. -/
def Unmarshal {α : Type} (dec : Dec α) (data : String) (dest : α) :
    α × Option UnmarshalError :=
  match parse data with
  | none => (dest, some UnmarshalError.malformed)
  | some v =>
    let r := dec v dest
    (r.1, r.2.map UnmarshalError.mismatch)

end json

namespace url

/-- UTF-8 encoding of a rune, as a list of byte values. -/
def utf8Bytes (c : Char) : List Nat :=
  let n := c.toNat
  if n < 0x80 then [n]
  else if n < 0x800 then [0xc0 + n / 64, 0x80 + n % 64]
  else if n < 0x10000 then [0xe0 + n / 4096, 0x80 + n / 64 % 64, 0x80 + n % 64]
  else [0xf0 + n / 262144, 0x80 + n / 4096 % 64, 0x80 + n / 64 % 64, 0x80 + n % 64]

/-- Model of `shouldEscape(c, encodeQueryComponent)`: only ASCII letters, digits and
`-`, `_`, `.`, `~` are left as they are. -/
def shouldEscape (b : Nat) : Bool :=
  !((97 ≤ b && b ≤ 122) || (65 ≤ b && b ≤ 90) || (48 ≤ b && b ≤ 57)
    || b == 45 || b == 95 || b == 46 || b == 126)

/-- Upper-case hexadecimal digit. -/
def upperhex (d : Nat) : Char :=
  if d < 10 then Char.ofNat (48 + d) else Char.ofNat (55 + d)

/-- Escaped form of one byte: a space becomes `+`, an unreserved byte stays, any other
byte becomes `%XX`. -/
def escapeByte (b : Nat) : List Char :=
  if b == 32 then ['+']
  else if shouldEscape b then ['%', upperhex (b / 16), upperhex (b % 16)]
  else [Char.ofNat b]

/-- Model of `url.QueryEscape`. -/
def QueryEscape (s : String) : String :=
  String.mk (s.toList.flatMap fun c => (utf8Bytes c).flatMap escapeByte)

/-- Model of `url.Values` (`map[string][]string`): the entries, with distinct keys. -/
abbrev Values := List (String × List String)

/-- Model of `Values.Add`: `v[key] = append(v[key], value)`. -/
def Values.Add : Values → String → String → Values
  | [], key, value => [(key, [value])]
  | (k, vs) :: rest, key, value =>
    if k == key then (k, vs ++ [value]) :: rest
    else (k, vs) :: Values.Add rest key value

/-- Model of `sort.Strings` on the keys of a map. -/
def sortStrings (keys : List String) : List String :=
  keys.insertionSort (fun a b => a ≤ b)

/-- Model of `v[k]`: the values under a key (nil when the key is absent). -/
def Values.get (v : Values) (k : String) : List String :=
  match v.find? (fun e => e.1 == k) with
  | some e => e.2
  | none => []

/-- Inner loop of `Values.Encode`: writes `key=value` for each value of one key,
preceded by `&` when the buffer is not empty. -/
def encodeKey (keyEscaped : String) : List String → String → String
  | [], buf => buf
  | v :: vs, buf =>
    let buf1 := if buf.length > 0 then buf ++ "&" else buf
    encodeKey keyEscaped vs (buf1 ++ keyEscaped ++ "=" ++ QueryEscape v)

/-- Outer loop of `Values.Encode` over the sorted keys. -/
def encodeKeys (v : Values) : List String → String → String
  | [], buf => buf
  | k :: ks, buf => encodeKeys v ks (encodeKey (QueryEscape k) (v.get k) buf)

/-- Model of `Values.Encode`: the URL-encoded form, sorted by key. -/
def Values.Encode (v : Values) : String :=
  encodeKeys v (sortStrings (v.map Prod.fst)) ""

end url

namespace query

/-- The field types that occur in the request structs of this program. -/
inductive FieldValue where
  | int (i : Int) : FieldValue
  | string (s : String) : FieldValue
  | strings (ss : List String) : FieldValue
deriving DecidableEq, Repr

/-- What reflection sees of one struct field: the name and the `omitempty` option of its
`url` tag, and its value. -/
structure Field where
  name : String
  omitempty : Bool
  value : FieldValue
deriving DecidableEq, Repr

/-- What reflection sees of the argument of `query.Values`. -/
inductive Input where
  | nil : Input
  | structPtr (fields : Option (List Field)) : Input
  | other (kind : String) : Input

/-- Model of `isEmptyValue`. -/
def isEmptyValue : FieldValue → Bool
  | .int i => i == 0
  | .string s => s.length == 0
  | .strings ss => ss.length == 0

/-- Model of `reflectValue` for a struct whose fields are ints, strings and slices of
strings with a plain name tag: a slice adds one value per element. -/
def reflectValue : url.Values → List Field → url.Values
  | values, [] => values
  | values, f :: rest =>
    if f.omitempty && isEmptyValue f.value then reflectValue values rest
    else
      match f.value with
      | .strings ss => reflectValue (ss.foldl (fun vs s => url.Values.Add vs f.name s) values) rest
      | .int i => reflectValue (url.Values.Add values f.name (strconv.Itoa i)) rest
      | .string s => reflectValue (url.Values.Add values f.name s) rest

/-- Model of `query.Values`: nil and nil pointers give empty values, a struct gives its
fields, anything else is an error. -/
def Values : Input → Except String url.Values
  | .nil => .ok []
  | .structPtr none => .ok []
  | .structPtr (some fields) => .ok (reflectValue [] fields)
  | .other kind => .error ("query: Values() expects struct input. Got " ++ kind)

end query

namespace http

def MethodGet : String := "GET"

def MethodPost : String := "POST"

/-- Model of `http.Request`, as far as `NewRequest(method, url, nil)` fills it. -/
structure Request where
  Method : String
  URL : String
deriving DecidableEq, Repr

/-- Model of `http.Response` together with the outcome of reading its body to the end:
`Body` is what `ioutil.ReadAll(res.Body)` returns. -/
structure Response where
  StatusCode : Int
  Body : Except String String

/-- Model of `http.Client`, as far as this program configures it. -/
structure Client where
  Timeout : Int
deriving DecidableEq, Repr

/-- Model of `httpguts.IsTokenRune`. -/
def isTokenRune (c : Char) : Bool :=
  c.isAlphanum || "!#$%&*+-.^_|~".toList.contains c || c == Char.ofNat 39 || c == Char.ofNat 96

/-- Model of `validMethod`. -/
def validMethod (method : String) : Bool :=
  method.length > 0 && method.toList.all isTokenRune

/-- An empty method means GET. -/
def defaultMethod (method : String) : String :=
  if method == "" then "GET" else method

/-- Model of `http.NewRequest(method, url, nil)`; `parseURL` tells whether `url.Parse`
accepts the string. -/
def NewRequest (parseURL : String → Bool) (method url : String) : Except String Request :=
  if !validMethod (defaultMethod method) then
    .error ("net/http: invalid method " ++ defaultMethod method)
  else if !parseURL url then .error ("parse " ++ url)
  else .ok ⟨defaultMethod method, url⟩

end http

namespace time

/-- Model of `time.Duration`: nanoseconds. -/
abbrev Duration := Int

def Millisecond : Duration := 1000000

def Second : Duration := 1000 * Millisecond

def Minute : Duration := 60 * Second

/-- Model of `time.Tick(d)`: nil (`none`) when `d ≤ 0`, otherwise the channel of a ticker
of period `d`. A receive from the nil channel blocks forever. -/
def Tick (d : Duration) : Option Duration :=
  if d ≤ 0 then none else some d

end time

namespace time

/-- Model of `*time.Location`. Times parsed without zone information are in UTC, the
only location that occurs here. -/
inductive Location where
  | UTC : Location
deriving DecidableEq, Repr

/-- Model of `time.Time` without a monotonic clock reading: `sec` counts the seconds
since January 1, year 1 00:00:00 UTC and `nsec` the nanoseconds within the second. -/
structure Time where
  sec : Int
  nsec : Int
  loc : Location
deriving DecidableEq, Repr

def secondsPerMinute : Nat := 60

def secondsPerHour : Nat := 60 * secondsPerMinute

def secondsPerDay : Nat := 24 * secondsPerHour

def daysPer400Years : Nat := 365 * 400 + 97

def daysPer100Years : Nat := 365 * 100 + 24

def daysPer4Years : Nat := 365 * 4 + 1

/-- The year of the absolute epoch: a year that is 1 modulo 400, far in the past. -/
def absoluteZeroYear : Int := -292277022399

/-- Seconds from the absolute epoch to the internal epoch (January 1, year 1). -/
def absoluteToInternal : Int := -9223371966579724800

def internalToAbsolute : Int := -absoluteToInternal

def unixToInternal : Int := (1969 * 365 + 1969 / 4 - 1969 / 100 + 1969 / 400) * 86400

def internalToUnix : Int := -unixToInternal

/-- Conversion to `uint64`. -/
def toUint64 (x : Int) : Nat := (x % 18446744073709551616).toNat

/-- Conversion of a `uint64` to `int64`. -/
def toInt64 (n : Nat) : Int :=
  if n % 18446744073709551616 < 9223372036854775808 then (n % 18446744073709551616 : Nat)
  else ((n % 18446744073709551616 : Nat) : Int) - 18446744073709551616

/-- Two's-complement wrap-around of 64-bit signed arithmetic. -/
def wrapInt64 (x : Int) : Int := toInt64 (toUint64 x)

/-- Wrap-around of 64-bit unsigned arithmetic. -/
def wrapUint64 (n : Nat) : Nat := n % 18446744073709551616

/-- Model of `daysBefore`: the days in a non-leap year before each month begins, with an
entry for the end of the year. -/
def daysBefore : List Nat :=
  [0, 31, 59, 90, 120, 151, 181, 212, 243, 273, 304, 334, 365]

def isLeap (year : Int) : Bool :=
  year % 4 == 0 && (year % 100 != 0 || year % 400 == 0)

/-- Model of `daysIn`; months are numbered from 1. -/
def daysIn (m : Nat) (year : Int) : Nat :=
  if m == 2 && isLeap year then 29
  else daysBefore.getD m 0 - daysBefore.getD (m - 1) 0

/-- Model of `norm`: brings `lo` into `[0, base)`, carrying into `hi`. -/
def norm (hi lo base : Int) : Int × Int :=
  let p : Int × Int :=
    if lo < 0 then
      let n := (-lo - 1) / base + 1
      (hi - n, lo + n * base)
    else (hi, lo)
  if p.2 ≥ base then
    let n := p.2 / base
    (p.1 + n, p.2 - n * base)
  else p

/-- Model of `daysSinceEpoch`: the days from the absolute epoch to the start of the
year, counted in cycles of 400, 100, 4 and 1 years. -/
def daysSinceEpoch (year : Int) : Nat :=
  let y := toUint64 (year - absoluteZeroYear)
  let n := y / 400
  let y := y - 400 * n
  let d := daysPer400Years * n
  let n := y / 100
  let y := y - 100 * n
  let d := d + daysPer100Years * n
  let n := y / 4
  let y := y - 4 * n
  let d := d + daysPer4Years * n
  let n := y
  d + 365 * n

/-- Model of `time.Date` for a location with offset zero. The 64-bit arithmetic wraps
around: for years after 2228 the seconds since the absolute epoch exceed the signed
range, and the sum with the epoch offsets comes back into it. -/
def Date (year month day hour min sec nsec : Int) (loc : Location) : Time :=
  let ym := norm year (month - 1) 12
  let year := ym.1
  let month := ym.2 + 1
  let sn := norm sec nsec 1000000000
  let ms := norm min sn.1 60
  let hm := norm hour ms.1 60
  let dh := norm day hm.1 24
  let nsec := sn.2
  let sec := ms.2
  let min := hm.2
  let hour := dh.2
  let day := dh.1
  let d := daysSinceEpoch year
  let d := d + daysBefore.getD (month - 1).toNat 0
  let d := if isLeap year && month ≥ 3 then d + 1 else d
  let d := d + toUint64 (day - 1)
  let abs := wrapUint64 (d * secondsPerDay)
  let abs := wrapUint64 (abs + toUint64 (hour * secondsPerHour + min * secondsPerMinute + sec))
  let unix := wrapInt64 (toInt64 abs + (absoluteToInternal + internalToUnix))
  { sec := wrapInt64 (unix + unixToInternal), nsec := nsec, loc := loc }

/-- Model of `Time.abs` for a time in UTC: seconds since the absolute epoch. -/
def Time.abs (t : Time) : Nat := toUint64 (t.sec + internalToAbsolute)

/-- Model of `Time.Unix`. -/
def Time.Unix (t : Time) : Int := wrapInt64 (t.sec + internalToUnix)

/-- First half of `absDate`: the year and the day within the year (from 0), found by
cutting off cycles of 400, 100, 4 and 1 years. -/
def absYearDay (abs : Nat) : Int × Nat :=
  let d := abs / secondsPerDay
  let n := d / daysPer400Years
  let y := 400 * n
  let d := d - daysPer400Years * n
  let n := d / daysPer100Years
  let n := n - n / 4
  let y := y + 100 * n
  let d := d - daysPer100Years * n
  let n := d / daysPer4Years
  let y := y + 4 * n
  let d := d - daysPer4Years * n
  let n := d / 365
  let n := n - n / 4
  let y := y + n
  let d := d - 365 * n
  (toInt64 y + absoluteZeroYear, d)

/-- Second half of `absDate`: the month (from 1) and the day of the month of the day
`yday` of a year. -/
def monthDay (leap : Bool) (yday : Nat) : Nat × Nat :=
  if leap && yday == 31 + 29 - 1 then (2, 29)
  else
    let day := if leap && yday > 31 + 29 - 1 then yday - 1 else yday
    let month := day / 31
    let fin := daysBefore.getD (month + 1) 0
    if day ≥ fin then (month + 2, day - fin + 1)
    else (month + 1, day - daysBefore.getD month 0 + 1)

/-- Model of `absDate(abs, true)`: year, month (from 1) and day of the month. -/
def absDate (abs : Nat) : Int × Nat × Nat :=
  let yd := absYearDay abs
  (yd.1, monthDay (isLeap yd.1) yd.2)

/-- Model of `appendInt(b, x, width)` with an empty `b`: the decimal form of `x`,
zero-padded to `width`. -/
def appendInt (x : Int) (width : Nat) : List Char :=
  let digits := strconv.formatDigits 20 (if x < 0 then toUint64 (-x) else toUint64 x) []
  (if x < 0 then ['-'] else []) ++ List.replicate (width - digits.length) '0' ++ digits

/-- Model of `Time.Format` for the layout `2006-01-02`: the long year, the zero-padded
month and the zero-padded day, separated by the literal `-`. -/
def Time.formatDate (t : Time) : String :=
  let ymd := absDate t.abs
  String.mk (appendInt ymd.1 4 ++ ['-'] ++ appendInt ymd.2.1 2 ++ ['-'] ++ appendInt ymd.2.2 2)

def isDigit (c : Char) : Bool := '0' ≤ c && c ≤ '9'

def digitVal (c : Char) : Nat := c.toNat - 48

/-- Model of `getnum(s, true)`: exactly two digits. -/
def getnum2 (value : List Char) : Option (Nat × List Char) :=
  match value with
  | a :: b :: rest =>
    if isDigit a && isDigit b then some (digitVal a * 10 + digitVal b, rest) else none
  | _ => none

/-- Model of `skip(value, "-")`. -/
def skipDash (value : List Char) : Option (List Char) :=
  match value with
  | c :: rest => if c == '-' then some rest else none
  | [] => none

/-- Model of the `stdLongYear` case of `Parse`: four bytes, the first a digit, read with
`atoi`. -/
def getLongYear (value : List Char) : Option (Nat × List Char) :=
  match value with
  | a :: b :: c :: d :: rest =>
    if isDigit a then (strconv.parseDigits [a, b, c, d] 0).map fun y => (y, rest) else none
  | _ => none

/-- Model of `time.Parse` for the layout `2006-01-02`. The error is the message of the
`*time.ParseError`. -/
def parseDate (value : String) : Except String Time :=
  match getLongYear value.toList with
  | none => .error ""
  | some (year, value) =>
    match skipDash value with
    | none => .error ""
    | some value =>
      match getnum2 value with
      | none => .error ""
      | some (month, value) =>
        if month ≤ 0 || 12 < month then .error ": month out of range"
        else
          match skipDash value with
          | none => .error ""
          | some value =>
            match getnum2 value with
            | none => .error ""
            | some (day, value) =>
              if value.length ≠ 0 then .error ": extra text"
              else if day < 1 || day > daysIn month year then .error ": day out of range"
              else .ok (Date year month day 0 0 0 0 Location.UTC)

end time

namespace gophish

def dateFormat : String := "2006-01-02"

def baseUrl : String := "https://api.phish.net/v3"

/-- By default queries are limited to 120 per minute. -/
def defaultQueryRate : time.Duration := time.Minute / 120

/-- Model of `Client`. `throttle` is the channel returned by `time.Tick`: `none` is the
nil channel, `some d` a ticker of period `d`. -/
structure Client where
  apiKey : String
  queryRate : time.Duration
  client : http.Client
  baseUrl : String
  throttle : Option time.Duration
deriving DecidableEq, Repr

/-- An option configuring the Client. -/
abbrev ClientOpt := Client → Client

def WithTimeout (timeout : time.Duration) : ClientOpt :=
  fun c => { c with client := { c.client with Timeout := timeout } }

def WithBaseUrl (url : String) : ClientOpt :=
  fun c => { c with baseUrl := url }

def NewClient (apiKey : String) (opts : List ClientOpt) : Client :=
  let c : Client :=
    { apiKey := apiKey, queryRate := defaultQueryRate, client := ⟨0⟩,
      baseUrl := baseUrl, throttle := none }
  let c := opts.foldl (fun c opt => opt c) c
  { c with throttle := time.Tick c.queryRate }

structure ErrorResponseBody (F : Type) where
  Message : String
  Body : List (String × json.Iface F)

/-- The standard error format for API errors. -/
structure ErrorResponse (F : Type) where
  ErrorCode : Int
  Response : Option (ErrorResponseBody F)

structure ResponseHeader where
  ErrorCode : Int
  ErrorMessage : String
deriving DecidableEq, Repr

/-- The request type for the shows/query endpoint. -/
structure ShowsQueryRequest where
  ShowIds : List String := []
  Year : Int := 0
  Month : Int := 0
  Day : Int := 0
  VenueId : Int := 0
  TourId : Int := 0
  Country : String := ""
  City : String := ""
  State : String := ""
  ShowdateGt : String := ""
  ShowdateGte : String := ""
  ShowdateLt : String := ""
  ShowdateLte : String := ""
  ShowyearGt : Int := 0
  ShowyearGte : Int := 0
  ShowyearLt : Int := 0
  ShowyearLte : Int := 0
  Limit : Int := 0
  Order : String := ""
deriving DecidableEq, Repr

structure Show where
  ShowId : Int
  ShowDate : String
  ArtistId : Int
  BilledAs : String
  Link : String
  Location : String
  Venue : String
  SetlistNotes : String
  VenueId : Int
  TourId : Int
  TourName : String
  TourWhen : String
  ArtistLink : String
deriving DecidableEq, Repr

structure ShowsQueryResponseBody where
  Count : Int
  Data : List (Option Show)
deriving DecidableEq, Repr

structure ShowsQueryResponse where
  ResponseHeader : Option ResponseHeader
  Response : Option ShowsQueryResponseBody
deriving DecidableEq, Repr

structure SetlistsGetRequest where
  ShowId : Int := 0
  ShowDate : String := ""
deriving DecidableEq, Repr

structure SetlistsRecentRequest where
  Limit : Int := 0
deriving DecidableEq, Repr

structure Setlist where
  ShowId : Int
  ShowDate : String
  ShortDate : String
  LongDate : String
  RelativeDate : String
  Url : String
  GapChart : String
  Artist : String
  ArtistId : Int
  VenueId : Int
  Venue : String
  Location : String
  SetlistData : String
  SetlistNotes : String
  Rating : String
deriving DecidableEq, Repr

structure SetlistsResponseBody where
  Count : Int
  Data : List (Option Setlist)
deriving DecidableEq, Repr

structure SetlistsResponse where
  ResponseHeader : Option ResponseHeader
  Response : Option SetlistsResponseBody
deriving DecidableEq, Repr

/-! ### The `url` tags of the request types, as reflection presents them -/

def ShowsQueryRequest.fields (r : ShowsQueryRequest) : List query.Field :=
  [ ⟨"showids", true, .strings r.ShowIds⟩,
    ⟨"year", true, .int r.Year⟩,
    ⟨"month", true, .int r.Month⟩,
    ⟨"day", true, .int r.Day⟩,
    ⟨"venueid", true, .int r.VenueId⟩,
    ⟨"tourid", true, .int r.TourId⟩,
    ⟨"country", true, .string r.Country⟩,
    ⟨"city", true, .string r.City⟩,
    ⟨"state", true, .string r.State⟩,
    ⟨"showdate_gt", true, .string r.ShowdateGt⟩,
    ⟨"showdate_gte", true, .string r.ShowdateGte⟩,
    ⟨"showdate_lt", true, .string r.ShowdateLt⟩,
    ⟨"showdate_lte", true, .string r.ShowdateLte⟩,
    ⟨"showyear_gt", true, .int r.ShowyearGt⟩,
    ⟨"showyear_gte", true, .int r.ShowyearGte⟩,
    ⟨"showyear_lt", true, .int r.ShowyearLt⟩,
    ⟨"showyear_lte", true, .int r.ShowyearLte⟩,
    ⟨"limit", true, .int r.Limit⟩,
    ⟨"order", true, .string r.Order⟩ ]

def SetlistsGetRequest.fields (r : SetlistsGetRequest) : List query.Field :=
  [ ⟨"showid", true, .int r.ShowId⟩,
    ⟨"showdate", true, .string r.ShowDate⟩ ]

def SetlistsRecentRequest.fields (r : SetlistsRecentRequest) : List query.Field :=
  [ ⟨"limit", true, .int r.Limit⟩ ]

/-! ### The `json` tags of the response types, as decoders -/

/-- Decoder of one struct field: the field is read, decoded into, and written back. -/
def field {α β : Type} (get : α → β) (set : α → β → α) (d : json.Dec β) : json.Dec α :=
  fun v x =>
    let r := d v (get x)
    (set x r.1, r.2)

def ErrorResponseBody.zero {F : Type} : ErrorResponseBody F := ⟨"", []⟩

def ErrorResponse.zero {F : Type} : ErrorResponse F := ⟨0, none⟩

def decodeErrorResponseBody {F : Type} (parseFloat : String → Option F) :
    json.Dec (ErrorResponseBody F) :=
  json.decodeStruct "gophish.ErrorResponseBody"
    [ ("message", field (·.Message) (fun x v => { x with Message := v }) json.decodeString),
      ("body", field (·.Body) (fun x v => { x with Body := v }) (json.decodeMap parseFloat)) ]

def decodeErrorResponse {F : Type} (parseFloat : String → Option F) :
    json.Dec (ErrorResponse F) :=
  json.decodeStruct "gophish.ErrorResponse"
    [ ("error", field (·.ErrorCode) (fun x v => { x with ErrorCode := v }) json.decodeInt),
      ("response", field (·.Response) (fun x v => { x with Response := v })
        (json.decodePtr ErrorResponseBody.zero (decodeErrorResponseBody parseFloat))) ]

def ResponseHeader.zero : ResponseHeader := ⟨0, ""⟩

/-- The two fields promoted from an embedded `*ResponseHeader`: the decoder allocates
the header when it is nil, before it decodes the member. -/
def headerFields {α : Type} (get : α → Option ResponseHeader)
    (set : α → Option ResponseHeader → α) : List (String × json.Dec α) :=
  [ ("error_code", field (fun x => ((get x).getD ResponseHeader.zero).ErrorCode)
      (fun x v => set x (some { (get x).getD ResponseHeader.zero with ErrorCode := v }))
      json.decodeInt),
    ("error_message", field (fun x => ((get x).getD ResponseHeader.zero).ErrorMessage)
      (fun x v => set x (some { (get x).getD ResponseHeader.zero with ErrorMessage := v }))
      json.decodeString) ]

def Show.zero : Show := ⟨0, "", 0, "", "", "", "", "", 0, 0, "", "", ""⟩

def Show.jsonFields : List (String × json.Dec Show) :=
  [ ("showid", field (·.ShowId) (fun x v => { x with ShowId := v }) json.decodeInt),
    ("showdate", field (·.ShowDate) (fun x v => { x with ShowDate := v }) json.decodeString),
    ("artistid", field (·.ArtistId) (fun x v => { x with ArtistId := v }) json.decodeInt),
    ("billed_as", field (·.BilledAs) (fun x v => { x with BilledAs := v }) json.decodeString),
    ("link", field (·.Link) (fun x v => { x with Link := v }) json.decodeString),
    ("location", field (·.Location) (fun x v => { x with Location := v }) json.decodeString),
    ("venue", field (·.Venue) (fun x v => { x with Venue := v }) json.decodeString),
    ("setlistnotes",
      field (·.SetlistNotes) (fun x v => { x with SetlistNotes := v }) json.decodeString),
    ("venueid", field (·.VenueId) (fun x v => { x with VenueId := v }) json.decodeInt),
    ("tourid", field (·.TourId) (fun x v => { x with TourId := v }) json.decodeInt),
    ("tourname", field (·.TourName) (fun x v => { x with TourName := v }) json.decodeString),
    ("tourwhen", field (·.TourWhen) (fun x v => { x with TourWhen := v }) json.decodeString),
    ("artistlink",
      field (·.ArtistLink) (fun x v => { x with ArtistLink := v }) json.decodeString) ]

def decodeShow : json.Dec Show := json.decodeStruct "gophish.Show" Show.jsonFields

def ShowsQueryResponseBody.zero : ShowsQueryResponseBody := ⟨0, []⟩

def decodeShowsQueryResponseBody : json.Dec ShowsQueryResponseBody :=
  json.decodeStruct "gophish.ShowsQueryResponseBody"
    [ ("count", field (·.Count) (fun x v => { x with Count := v }) json.decodeInt),
      ("data", field (·.Data) (fun x v => { x with Data := v })
        (json.decodeSlice "[]*gophish.Show" none (json.decodePtr Show.zero decodeShow))) ]

def ShowsQueryResponse.zero : ShowsQueryResponse := ⟨none, none⟩

def decodeShowsQueryResponse : json.Dec ShowsQueryResponse :=
  json.decodeStruct "gophish.ShowsQueryResponse"
    (headerFields (·.ResponseHeader) (fun x h => { x with ResponseHeader := h }) ++
      [ ("response", field (·.Response) (fun x v => { x with Response := v })
          (json.decodePtr ShowsQueryResponseBody.zero decodeShowsQueryResponseBody)) ])

def Setlist.zero : Setlist := ⟨0, "", "", "", "", "", "", "", 0, 0, "", "", "", "", ""⟩

def Setlist.jsonFields : List (String × json.Dec Setlist) :=
  [ ("showid", field (·.ShowId) (fun x v => { x with ShowId := v }) json.decodeInt),
    ("showdate", field (·.ShowDate) (fun x v => { x with ShowDate := v }) json.decodeString),
    ("short_date",
      field (·.ShortDate) (fun x v => { x with ShortDate := v }) json.decodeString),
    ("long_date", field (·.LongDate) (fun x v => { x with LongDate := v }) json.decodeString),
    ("relative_date",
      field (·.RelativeDate) (fun x v => { x with RelativeDate := v }) json.decodeString),
    ("url", field (·.Url) (fun x v => { x with Url := v }) json.decodeString),
    ("gapchart", field (·.GapChart) (fun x v => { x with GapChart := v }) json.decodeString),
    ("artist", field (·.Artist) (fun x v => { x with Artist := v }) json.decodeString),
    ("artistid", field (·.ArtistId) (fun x v => { x with ArtistId := v }) json.decodeInt),
    ("venueid", field (·.VenueId) (fun x v => { x with VenueId := v }) json.decodeInt),
    ("venue", field (·.Venue) (fun x v => { x with Venue := v }) json.decodeString),
    ("location", field (·.Location) (fun x v => { x with Location := v }) json.decodeString),
    ("setlistdata",
      field (·.SetlistData) (fun x v => { x with SetlistData := v }) json.decodeString),
    ("setlistnotes",
      field (·.SetlistNotes) (fun x v => { x with SetlistNotes := v }) json.decodeString),
    ("rating", field (·.Rating) (fun x v => { x with Rating := v }) json.decodeString) ]

def decodeSetlist : json.Dec Setlist := json.decodeStruct "gophish.Setlist" Setlist.jsonFields

def SetlistsResponseBody.zero : SetlistsResponseBody := ⟨0, []⟩

def decodeSetlistsResponseBody : json.Dec SetlistsResponseBody :=
  json.decodeStruct "gophish.SetlistsResponseBody"
    [ ("count", field (·.Count) (fun x v => { x with Count := v }) json.decodeInt),
      ("data", field (·.Data) (fun x v => { x with Data := v })
        (json.decodeSlice "[]*gophish.Setlist" none (json.decodePtr Setlist.zero decodeSetlist))) ]

def SetlistsResponse.zero : SetlistsResponse := ⟨none, none⟩

def decodeSetlistsResponse : json.Dec SetlistsResponse :=
  json.decodeStruct "gophish.SetlistsResponse"
    (headerFields (·.ResponseHeader) (fun x h => { x with ResponseHeader := h }) ++
      [ ("response", field (·.Response) (fun x v => { x with Response := v })
          (json.decodePtr SetlistsResponseBody.zero decodeSetlistsResponseBody)) ])

/-! ### Errors -/

/-- The library errors that `do` wraps. -/
inductive Cause where
  | values (msg : String) : Cause
  | request (msg : String) : Cause
  | transport (msg : String) : Cause
  | read (msg : String) : Cause
  | unmarshal (e : json.UnmarshalError) : Cause
deriving DecidableEq, Repr

/-- A non-nil `error` returned by `do`: either an `ErrorResponse` value, or a library
error wrapped with a message by `errors.Wrap` or `errors.Wrapf` (the message is kept as
the format string). -/
inductive Error (F : Type) where
  | api (e : ErrorResponse F) : Error F
  | wrapped (cause : Cause) (message : String) : Error F

end gophish

namespace errors

/-- Model of `errors.Wrap`: nil stays nil. -/
def Wrap {F : Type} (err : Option gophish.Cause) (message : String) : Option (gophish.Error F) :=
  err.map fun e => gophish.Error.wrapped e message

end errors

namespace gophish

/-- The world a client talks to, and the float parser of the Go runtime. -/
structure Env (F : Type) where
  /-- Model of `strconv.ParseFloat(s, 64)` on a JSON number; `none` is a range error. -/
  parseFloat : String → Option F
  /-- Whether `url.Parse` accepts a URL. -/
  parseURL : String → Bool
  /-- Model of `http.Client.Do`: the transport error or the response to a request. -/
  roundTrip : http.Request → Except String http.Response

/-- One call, as observed from outside: the requests handed to the transport, and what
the call returned (`none` when it never returns). -/
structure Run (ρ : Type) where
  sent : List http.Request
  result : Option ρ

/-- Model of `Client.Do`: sends a throttled request. The receive from the throttle only
delays the call, except on the nil channel, where it blocks forever. -/
def Client.Do {F : Type} (c : Client) (env : Env F) (req : http.Request) :
    Run (Except String http.Response) :=
  match c.throttle with
  | none => ⟨[], none⟩
  | some _ => ⟨[req], some (env.roundTrip req)⟩

/-- Model of `Client.do`. The result holds the returned error and the contents of the
destination `resp` after the call. -/
def Client.do {F α : Type} (c : Client) (env : Env F) (method apiPath : String)
    (req : query.Input) (dec : json.Dec α) (resp : α) : Run (Option (Error F) × α) :=
  match query.Values req with
  | .error e => ⟨[], some (some (.wrapped (.values e) "unable to convert %v to URL values"), resp)⟩
  | .ok vals =>
    let vals := url.Values.Add vals "apikey" c.apiKey
    let urlString := c.baseUrl ++ apiPath ++ "?" ++ url.Values.Encode vals
    match http.NewRequest env.parseURL method urlString with
    | .error e =>
      ⟨[], some (some (.wrapped (.request e) "unable to create http request for url %s"), resp)⟩
    | .ok hreq =>
      let sending := c.Do env hreq
      match sending.result with
      | none => ⟨sending.sent, none⟩
      | some (.error e) =>
        ⟨sending.sent, some (some (.wrapped (.transport e) "unable to perform the API lookup"), resp)⟩
      | some (.ok res) =>
        match res.Body with
        | .error e => ⟨sending.sent, some (some (.wrapped (.read e) "unable to read body"), resp)⟩
        | .ok body =>
          if res.StatusCode ≠ 200 then
            match json.Unmarshal (decodeErrorResponse env.parseFloat) body ErrorResponse.zero with
            | (_, some e) =>
              ⟨sending.sent,
                some (some (.wrapped (.unmarshal e) "unable to unmarshal json error"), resp)⟩
            | (errResp, none) => ⟨sending.sent, some (some (.api errResp), resp)⟩
          else
            let r := json.Unmarshal dec body resp
            ⟨sending.sent,
              some (errors.Wrap (r.2.map Cause.unmarshal) "unable to umarshal json response", r.1)⟩

def Client.ShowsQuery {F : Type} (c : Client) (env : Env F) (req : Option ShowsQueryRequest) :
    Run (Option ShowsQueryResponse × Option (Error F)) :=
  let r := c.do env http.MethodPost "/shows/query"
    (.structPtr (req.map ShowsQueryRequest.fields)) decodeShowsQueryResponse
    ShowsQueryResponse.zero
  ⟨r.sent, r.result.map fun out =>
    match out.1 with
    | some err => (none, some err)
    | none => (some out.2, none)⟩

def Client.SetlistsGet {F : Type} (c : Client) (env : Env F) (req : Option SetlistsGetRequest) :
    Run (Option SetlistsResponse × Option (Error F)) :=
  let r := c.do env http.MethodGet "/setlists/get"
    (.structPtr (req.map SetlistsGetRequest.fields)) decodeSetlistsResponse
    SetlistsResponse.zero
  ⟨r.sent, r.result.map fun out =>
    match out.1 with
    | some err => (none, some err)
    | none => (some out.2, none)⟩

def Client.SetlistsLatest {F : Type} (c : Client) (env : Env F) :
    Run (Option SetlistsResponse × Option (Error F)) :=
  let r := c.do env http.MethodGet "/setlists/latest" .nil decodeSetlistsResponse
    SetlistsResponse.zero
  ⟨r.sent, r.result.map fun out =>
    match out.1 with
    | some err => (none, some err)
    | none => (some out.2, none)⟩

def Client.SetlistsRecent {F : Type} (c : Client) (env : Env F)
    (req : Option SetlistsRecentRequest) : Run (Option SetlistsResponse × Option (Error F)) :=
  let r := c.do env http.MethodGet "/setlists/recent"
    (.structPtr (req.map SetlistsRecentRequest.fields)) decodeSetlistsResponse
    SetlistsResponse.zero
  ⟨r.sent, r.result.map fun out =>
    match out.1 with
    | some err => (none, some err)
    | none => (some out.2, none)⟩

def Client.SetlistsTiph {F : Type} (c : Client) (env : Env F) :
    Run (Option SetlistsResponse × Option (Error F)) :=
  let r := c.do env http.MethodGet "/setlists/tiph" .nil decodeSetlistsResponse
    SetlistsResponse.zero
  ⟨r.sent, r.result.map fun out =>
    match out.1 with
    | some err => (none, some err)
    | none => (some out.2, none)⟩

def Client.SetlistsRandom {F : Type} (c : Client) (env : Env F) :
    Run (Option SetlistsResponse × Option (Error F)) :=
  let r := c.do env http.MethodGet "/setlists/random" .nil decodeSetlistsResponse
    SetlistsResponse.zero
  ⟨r.sent, r.result.map fun out =>
    match out.1 with
    | some err => (none, some err)
    | none => (some out.2, none)⟩

end gophish

namespace gophish

/-- Parses the date string into a `time.Time` for use in the Phish.Net API:
`time.Parse(dateFormat, date)`, where `time.parseDate` is `time.Parse` for the layout
`dateFormat`. -/
def ParseDate (date : String) : Except String time.Time :=
  time.parseDate date

/-- Converts a `time.Time` into the format that the Phish.Net API expects:
`date.Format(dateFormat)`, where `Time.formatDate` is `Time.Format` for the layout
`dateFormat`. -/
def FormatDate (date : time.Time) : String :=
  date.formatDate

end gophish

namespace fmt

/-- An operand of a formatting verb, as `printArg` sees it: the `Error` method of its
type when the type implements `error`, and the text that printing by reflection gives.
A method call that does not return is `none`. -/
structure Operand where
  errorMethod : Option (Unit → Option String)
  reflected : String

/-- Model of `fmt.Sprintf(before + "%v", arg)`. `handleMethods` comes before printing by
reflection: for the verb `%v` an operand that implements `error` is printed as the
string that its `Error` method returns, and the call returns only if the method does. -/
def SprintfV (before : String) (arg : Operand) : Option String :=
  match arg.errorMethod with
  | some method => (method ()).map fun s => before ++ s
  | none => some (before ++ arg.reflected)

end fmt

namespace gophish

/-- Model of `ErrorResponse.Error`. `ErrorResponse` implements `error` through this very
method, so the operand `e` of `%v` carries it. The first argument is how reflection
would print the struct; the second bounds the depth of nested calls that the stack can
hold, and `none` says that the call has not returned within it. -/
def ErrorResponse.Error {F : Type} (reflected : ErrorResponse F → String) :
    Nat → ErrorResponse F → Option String
  | 0, _ => none
  | depth + 1, e =>
    fmt.SprintfV "API Error: "
      ⟨some fun _ => ErrorResponse.Error reflected depth e, reflected e⟩

end gophish

/-! ## Notions used to state the properties -/

/-- The range of the Go type `int` (64 bits). -/
def IsInt64 (i : Int) : Prop := -(2 : Int) ^ 63 ≤ i ∧ i < (2 : Int) ^ 63

instance (i : Int) : Decidable (IsInt64 i) := by
  unfold IsInt64
  infer_instance

namespace json

mutual
/-- Every number in the value has a `float64` value, so that the value converts to a Go
`interface{}` without a range error. -/
def Value.floatsInRange {F : Type} (parseFloat : String → Option F) : Value → Bool
  | .null => true
  | .bool _ => true
  | .number lit => (parseFloat lit).isSome
  | .string _ => true
  | .array elems => floatsInRangeElems parseFloat elems
  | .object members => floatsInRangeMembers parseFloat members
/-- The same for the elements of an array. -/
def floatsInRangeElems {F : Type} (parseFloat : String → Option F) : List Value → Bool
  | [] => true
  | v :: vs => Value.floatsInRange parseFloat v && floatsInRangeElems parseFloat vs
/-- The same for the members of an object. -/
def floatsInRangeMembers {F : Type} (parseFloat : String → Option F) :
    List (String × Value) → Bool
  | [] => true
  | (_, v) :: ms => Value.floatsInRange parseFloat v && floatsInRangeMembers parseFloat ms
end

end json

namespace gophish

/-- The error envelope of the wire protocol,
`{"error":<code>,"response":{"message":<message>,"body":{...context...}}}`. -/
def errorEnvelope (code : Int) (message : String) (context : List (String × json.Value)) :
    json.Value :=
  .object
    [ ("error", .number (strconv.Itoa code)),
      ("response", .object [("message", .string message), ("body", .object context)]) ]

/-- The body is a well-formed error envelope with the given code and message: it is the
text of an error envelope whose code is a Go `int` and whose context fields hold only
numbers that have a `float64` value. -/
def WellFormedErrorEnvelope {F : Type} (parseFloat : String → Option F) (body : String)
    (code : Int) (message : String) : Prop :=
  ∃ context, json.parse body = some (errorEnvelope code message context) ∧ IsInt64 code ∧
    json.floatsInRangeMembers parseFloat context = true

/-- The call `c.do env method apiPath req ..` gets an HTTP response with the given status
code and body: the request is built, passes the throttle, and the transport answers it
with a response whose body is read to the end. -/
def Client.receives {F : Type} (c : Client) (env : Env F) (method apiPath : String)
    (req : query.Input) (status : Int) (body : String) : Prop :=
  ∃ vals hreq res,
    query.Values req = .ok vals ∧
    http.NewRequest env.parseURL method
      (c.baseUrl ++ apiPath ++ "?" ++ url.Values.Encode (url.Values.Add vals "apikey" c.apiKey))
      = .ok hreq ∧
    (c.Do env hreq).result = some (.ok res) ∧
    res.StatusCode = status ∧ res.Body = .ok body

end gophish

namespace gophish

/-- A world in which every URL parses and the server answers every request with the
given status code and body, as the mock servers of the tests do. -/
def mockEnv (status : Int) (body : String) : Env Unit :=
  { parseFloat := fun _ => some (),
    parseURL := fun _ => true,
    roundTrip := fun _ => .ok ⟨status, .ok body⟩ }

/-- The client of the tests. -/
def testClient : Client := NewClient "abc" [WithBaseUrl "http://127.0.0.1:8080"]

/-- The error body of the specification's example. -/
def badKeyBody : String :=
  "\x7b\"error\":3,\"response\":\x7b\"message\":\"bad key\",\"body\":\x7b\x7d\x7d\x7d"

end gophish

namespace gophish

/-- The JSON types of the fields of a record. -/
inductive FieldKind where
  | int : FieldKind
  | string : FieldKind
deriving DecidableEq, Repr

/-- The value is of the kind: a Go `int` written in decimal, or a string. -/
def HasKind : FieldKind → json.Value → Prop
  | .int, v => ∃ i, IsInt64 i ∧ v = .number (strconv.Itoa i)
  | .string, v => ∃ s, v = .string s

/-- The value is a record of the given declaration: an object in which every member whose
key names a declared field, case ignored, holds a value of the kind of that field. -/
def IsRecord (schema : List (String × FieldKind)) (v : json.Value) : Prop :=
  ∃ members, v = .object members ∧
    ∀ kv ∈ members, ∀ f ∈ schema, json.equalFold f.1 kv.1 = true → HasKind f.2 kv.2

/-- The declared fields of a show record. -/
def Show.schema : List (String × FieldKind) :=
  [ ("showid", .int), ("showdate", .string), ("artistid", .int), ("billed_as", .string),
    ("link", .string), ("location", .string), ("venue", .string), ("setlistnotes", .string),
    ("venueid", .int), ("tourid", .int), ("tourname", .string), ("tourwhen", .string),
    ("artistlink", .string) ]

/-- The declared fields of a setlist record. -/
def Setlist.schema : List (String × FieldKind) :=
  [ ("showid", .int), ("showdate", .string), ("short_date", .string), ("long_date", .string),
    ("relative_date", .string), ("url", .string), ("gapchart", .string), ("artist", .string),
    ("artistid", .int), ("venueid", .int), ("venue", .string), ("location", .string),
    ("setlistdata", .string), ("setlistnotes", .string), ("rating", .string) ]

/-- The success envelope of the wire protocol,
`{"error_code":<int>,"error_message":<null or string>,"response":{"count":<n>,"data":[..]}}`. -/
def successEnvelope (errorCode : Int) (errorMessage : Option String) (count : Int)
    (records : List json.Value) : json.Value :=
  .object
    [ ("error_code", .number (strconv.Itoa errorCode)),
      ("error_message", match errorMessage with
        | none => .null
        | some s => .string s),
      ("response", .object [("count", .number (strconv.Itoa count)), ("data", .array records)]) ]

/-- The body is a well-formed success envelope with the given count and data sequence:
it is the text of a success envelope whose error code and count are Go `int`s and whose
data are records of the given declaration. -/
def WellFormedSuccessEnvelope (schema : List (String × FieldKind)) (body : String)
    (count : Int) (records : List json.Value) : Prop :=
  ∃ errorCode errorMessage,
    json.parse body = some (successEnvelope errorCode errorMessage count records) ∧
    IsInt64 errorCode ∧ IsInt64 count ∧ ∀ r ∈ records, IsRecord schema r

end gophish

namespace json

mutual
/-- Structural equality test on JSON values. -/
def Value.beq : Value → Value → Bool
  | .null, .null => true
  | .bool a, .bool b => a == b
  | .number a, .number b => a == b
  | .string a, .string b => a == b
  | .array a, .array b => beqElems a b
  | .object a, .object b => beqMembers a b
  | _, _ => false
/-- Structural equality test on lists of JSON values. -/
def beqElems : List Value → List Value → Bool
  | [], [] => true
  | a :: as, b :: bs => Value.beq a b && beqElems as bs
  | _, _ => false
/-- Structural equality test on lists of object members. -/
def beqMembers : List (String × Value) → List (String × Value) → Bool
  | [], [] => true
  | (j, a) :: as, (k, b) :: bs => j == k && Value.beq a b && beqMembers as bs
  | _, _ => false
end

end json

namespace gophish

/-- Decision procedure for `HasKind`. -/
def hasKindB : FieldKind → json.Value → Bool
  | .int, .number lit =>
    match strconv.ParseInt lit with
    | some i => strconv.Itoa i == lit
    | none => false
  | .string, .string _ => true
  | _, _ => false

/-- Decision procedure for `IsRecord`. -/
def isRecordB (schema : List (String × FieldKind)) : json.Value → Bool
  | .object members =>
    members.all fun kv => schema.all fun f => !json.equalFold f.1 kv.1 || hasKindB f.2 kv.2
  | _ => false

/-- The data sequence of a body that is a success envelope. -/
def dataOf (body : String) : List json.Value :=
  match json.parse body with
  | some (.object [_, _, (_, .object [_, (_, .array records)])]) => records
  | _ => []

/-- Decision procedure for `WellFormedSuccessEnvelope` on the data sequence of the body. -/
def wellFormedSuccessEnvelopeB (schema : List (String × FieldKind)) (body : String)
    (errorCode : Int) (errorMessage : Option String) (count : Int) : Bool :=
  (match json.parse body with
    | some v => json.Value.beq v (successEnvelope errorCode errorMessage count (dataOf body))
    | none => false) &&
  decide (IsInt64 errorCode) && decide (IsInt64 count) && (dataOf body).all (isRecordB schema)

/-- The body that the mock server of `TestShowsQuery` writes. -/
def showsQueryTestBody : String :=
  "\x7b\"error_code\":0,\"error_message\":null,\"response\":\x7b\"count\":5,\"data\":[\x7b\"showid\":1326251770,\"showdate\":\"1982-12-07\",\"artistid\":2,\"billed_as\":\"Space Antelope\",\"link\":\"http:\\/\\/phish.net\\/setlists\\/trey-anastasio-december-07-1982-the-taft-school-watertown-ct-usa.html\",\"location\":\"Watertown, CT, USA\",\"venue\":\"The Taft School\",\"setlistnotes\":\"This list is likely incomplete, and the date may be incorrect. This is the only show by Space Antelope documented by a recording in circulation, though there were likely other gigs. The Jam that preceded Walk on the Wild Side&nbsp;contained part of what would become the <a href=\\\"http:\\/\\/phish.net\\/song\\/arrival\\/history\\\">Arrival<\\/a>&nbsp;segment of <a href=\\\"http:\\/\\/phish.net\\/song\\/fluffs-travels\\/history\\\">Fluff&#39;s Travels<\\/a>.\",\"venueid\":1140,\"tourid\":61,\"tourname\":\"Not Part of a Tour\",\"tour_when\":\"No Tour\",\"artistlink\":\"http:\\/\\/phish.net\\/setlists\\/trey\"\x7d,\x7b\"showid\":1251168326,\"showdate\":\"1983-10-30\",\"artistid\":1,\"billed_as\":\"Phish\",\"link\":\"http:\\/\\/phish.net\\/setlists\\/phish-october-30-1983-harris-millis-cafeteria-university-of-vermont-burlington-vt-usa.html\",\"location\":\"Burlington, VT, USA\",\"venue\":\"Harris-Millis Cafeteria, UVM\",\"setlistnotes\":\"Throughout most of Phish history this was understood to have been the date of the first Phish show. The band believed this to be true as late as 1998, when on October 30 they celebrated their &ldquo;15th anniversary.&rdquo; Later research, however, revealed this to be incorrect, and that the correct date of this first show &ndash; commonly referred to as the &ldquo;Thriller&rdquo; show or a &ldquo;Halloween Dance&rdquo; &ndash; is December 2, 1983.\",\"venueid\":7,\"tourid\":61,\"tourname\":\"Not Part of a Tour\",\"tour_when\":\"No Tour\",\"artistlink\":\"http:\\/\\/phish.net\\/setlists\\/phish\"\x7d,\x7b\"showid\":1251253100,\"showdate\":\"1983-12-02\",\"artistid\":1,\"billed_as\":\"Phish\",\"link\":\"http:\\/\\/phish.net\\/setlists\\/phish-december-02-1983-harris-millis-cafeteria-university-of-vermont-burlington-vt-usa.html\",\"location\":\"Burlington, VT, USA\",\"venue\":\"Harris-Millis Cafeteria, UVM\",\"setlistnotes\":\"Trey, Mike, Fish, and Jeff Holdsworth recall being billed as &ldquo;Blackwood Convention&rdquo; for this show (though no one is certain what band name was used), which is believed to be their first public gig together. The band was short on equipment, so a hockey stick was used as a microphone stand. Between sets, the DJ spun some Michael Jackson and Trey drummed along to the album. The house music (which included more Michael Jackson) was presumably turned up after Fire to drown out the band. The setlist may be incomplete, though, as the master recording contains nothing after Trey&rsquo;s sarcastic comments about Michael Jackson following Fire. All songs were, of course, Phish debuts. Back in Black was teased before Scarlet Begonias. While this show is often billed as an ROTC Halloween Dance that took place on October 30, 1983, this is incorrect. The master copy of the recording of this show, as unearthed by Phish archivist Kevin Shapiro, contains a handwritten note that pegs the date as December 2, 1983. In discussions with Kevin, band members confirmed that they recall rehearsing for this show over the Thanksgiving Break, and that the show was a Christmas semi-formal. Also, it was not an ROTC-sponsored event; it was a dorm dance in a predominantly ROTC dorm (Mike&rsquo;s dorm at the time).\",\"venueid\":7,\"tourid\":1,\"tourname\":\"1983 Tour\",\"tour_when\":\"1983\",\"artistlink\":\"http:\\/\\/phish.net\\/setlists\\/phish\"\x7d,\x7b\"showid\":1251253531,\"showdate\":\"1983-12-03\",\"artistid\":1,\"billed_as\":\"Phish\",\"link\":\"http:\\/\\/phish.net\\/setlists\\/phish-december-03-1983-marsh-austin-tupper-dormitory-university-of-vermont-burlington-vt-usa.html\",\"location\":\"Burlington, VT, USA\",\"venue\":\"Marsh \\/ Austin \\/ Tupper Dormitory, University of Vermont\",\"setlistnotes\":\"This show, played by Trey, Mike, Fish, and Jeff, may have been billed as &ldquo;Blackwood Convention.&rdquo; This date is believed to be correct but, due to a lack of records, the exact date cannot be ascertained. &nbsp; &nbsp;\",\"venueid\":272,\"tourid\":1,\"tourname\":\"1983 Tour\",\"tour_when\":\"1983\",\"artistlink\":\"http:\\/\\/phish.net\\/setlists\\/phish\"\x7d,\x7b\"showid\":1331863583,\"showdate\":\"1984-04-28\",\"artistid\":-1,\"billed_as\":\"Dangerous Grapes\",\"link\":\"http:\\/\\/phish.net\\/setlists\\/guest-appearance-april-28-1984-slade-hall-university-of-vermont-burlington-vt-usa.html\",\"location\":\"Burlington, VT, USA\",\"venue\":\"Slade Hall, University of Vermont\",\"setlistnotes\":\"No setlist is known for this instance of Mike and Fish playing with the Dangerous Grapes.\",\"venueid\":246,\"tourid\":61,\"tourname\":\"Not Part of a Tour\",\"tour_when\":\"No Tour\",\"artistlink\":\"http:\\/\\/phish.net\\/setlists\\/guest\"\x7d]\x7d\x7d"

/-- The body that the mock server of `TestSetlistsGet` writes. -/
def setlistsGetTestBody : String :=
  "\x7b\"error_code\":0,\"error_message\":null,\"response\":\x7b\"count\":1,\"data\":[\x7b\"showid\":1250878246,\"showdate\":\"1992-04-23\",\"short_date\":\"04\\/23\\/1992\",\"long_date\":\"Thursday 04\\/23\\/1992\",\"relative_date\":\"27 years ago\",\"url\":\"http:\\/\\/phish.net\\/setlists\\/phish-april-23-1992-oz-nightclub-seattle-wa-usa.html\",\"gapchart\":\"http:\\/\\/phish.net\\/setlists\\/gap-chart\\/phish-april-23-1992-oz-nightclub-seattle-wa-usa.html\",\"artist\":\"<a href=\x27http:\\/\\/phish.net\\/setlists\\/phish\x27>Phish<\\/a>\",\"artistid\":1,\"venueid\":142,\"venue\":\"<a href=\\\"http:\\/\\/phish.net\\/venue\\/142\\/Oz_Nightclub\\\">Oz Nightclub<\\/a>\",\"location\":\"Seattle, WA, USA\",\"setlistdata\":\"<p><span class=\x27set-label\x27>Set 1<\\/span>: <a href=\x27http:\\/\\/phish.net\\/song\\/cavern\x27 class=\x27setlist-song\x27>Cavern<\\/a> > <a href=\x27http:\\/\\/phish.net\\/song\\/the-curtain\x27 class=\x27setlist-song\x27>The Curtain<\\/a> > <a href=\x27http:\\/\\/phish.net\\/song\\/split-open-and-melt\x27 class=\x27setlist-song\x27>Split Open and Melt<\\/a>, <a href=\x27http:\\/\\/phish.net\\/song\\/uncle-pen\x27 class=\x27setlist-song\x27>Uncle Pen<\\/a>, <a href=\x27http:\\/\\/phish.net\\/song\\/guelah-papyrus\x27 class=\x27setlist-song\x27>Guelah Papyrus<\\/a>, <a href=\x27http:\\/\\/phish.net\\/song\\/the-squirming-coil\x27 class=\x27setlist-song\x27>The Squirming Coil<\\/a> > <a href=\x27http:\\/\\/phish.net\\/song\\/llama\x27 class=\x27setlist-song\x27>Llama<\\/a>, <a href=\x27http:\\/\\/phish.net\\/song\\/bouncing-around-the-room\x27 class=\x27setlist-song\x27>Bouncing Around the Room<\\/a>, <a href=\x27http:\\/\\/phish.net\\/song\\/its-ice\x27 class=\x27setlist-song\x27>It\x27s Ice<\\/a>, <a href=\x27http:\\/\\/phish.net\\/song\\/i-didnt-know\x27 class=\x27setlist-song\x27>I Didn\x27t Know<\\/a>, <a href=\x27http:\\/\\/phish.net\\/song\\/possum\x27 class=\x27setlist-song\x27>Possum<\\/a><sup title=\\\"Simpsons, Aw Fuck!, Oom Pa Pa, and All Fall Down signals in intro. Simpsons signal at the end.\\\">[1]<\\/sup><\\/p><p><span class=\x27set-label\x27>Set 2<\\/span>: <a href=\x27http:\\/\\/phish.net\\/song\\/the-landlady\x27 class=\x27setlist-song\x27>The Landlady<\\/a>, <a href=\x27http:\\/\\/phish.net\\/song\\/poor-heart\x27 class=\x27setlist-song\x27>Poor Heart<\\/a> > <a href=\x27http:\\/\\/phish.net\\/song\\/mikes-song\x27 class=\x27setlist-song\x27>Mike\x27s Song<\\/a> > <a href=\x27http:\\/\\/phish.net\\/song\\/i-am-hydrogen\x27 class=\x27setlist-song\x27>I Am Hydrogen<\\/a> > <a href=\x27http:\\/\\/phish.net\\/song\\/weekapaug-groove\x27 class=\x27setlist-song\x27>Weekapaug Groove<\\/a>, <a href=\x27http:\\/\\/phish.net\\/song\\/the-lizards\x27 class=\x27setlist-song\x27>The Lizards<\\/a>, <a href=\x27http:\\/\\/phish.net\\/song\\/nicu\x27 class=\x27setlist-song\x27>NICU<\\/a>, <a href=\x27http:\\/\\/phish.net\\/song\\/horn\x27 class=\x27setlist-song\x27>Horn<\\/a> > <a href=\x27http:\\/\\/phish.net\\/song\\/tweezer\x27 class=\x27setlist-song\x27>Tweezer<\\/a> > <a href=\x27http:\\/\\/phish.net\\/song\\/fee\x27 class=\x27setlist-song\x27>Fee<\\/a><sup title=\\\"Lyrics changed to \\\"have a cup of espresso.\\\"\\\">[2]<\\/sup> -> <a href=\x27http:\\/\\/phish.net\\/song\\/maze\x27 class=\x27setlist-song\x27>Maze<\\/a>, <a href=\x27http:\\/\\/phish.net\\/song\\/cold-as-ice\x27 class=\x27setlist-song\x27>Cold as Ice<\\/a> > <a href=\x27http:\\/\\/phish.net\\/song\\/cracklin-rosie\x27 class=\x27setlist-song\x27>Cracklin\x27 Rosie<\\/a> > <a href=\x27http:\\/\\/phish.net\\/song\\/cold-as-ice\x27 class=\x27setlist-song\x27>Cold as Ice<\\/a>, <a href=\x27http:\\/\\/phish.net\\/song\\/golgi-apparatus\x27 class=\x27setlist-song\x27>Golgi Apparatus<\\/a><\\/p><p><span class=\x27set-label\x27>Encore<\\/span>: <a href=\x27http:\\/\\/phish.net\\/song\\/sleeping-monkey\x27 class=\x27setlist-song\x27>Sleeping Monkey<\\/a> > <a href=\x27http:\\/\\/phish.net\\/song\\/tweezer-reprise\x27 class=\x27setlist-song\x27>Tweezer Reprise<\\/a><p class=\x27setlist-footer\x27>[1] Simpsons, Aw Fuck!, Oom Pa Pa, and All Fall Down signals in intro. Simpsons signal at the end.<br>[2] Lyrics changed to \\\"have a cup of espresso.\\\"<br><\\/p>\",\"setlistnotes\":\"Fish&nbsp;was in the process of introducing Rosie as being by one of his favorite composers when feedback caused him to say &quot;Jesus Christ,&quot; leading to some amusing banter. The Possum intro contained a full band Yield Not to Temptation tease and Simpsons, Aw Fuck!, Oom Pa Pa, and All Fall Down signals. Possum also contained a Dixie tease as well as a Simpsons signal at the end. Landlady was preceded by a Random Laugh signal. Lizards was played for &quot;Liz.&quot; Fee&#39;s lyrics were changed to &quot;have a cup of espresso.&quot;<br>via <a href=\\\"http:\\/\\/phish.net\\\">phish.net<\\/a>\",\"rating\":\"2.8750\"\x7d]\x7d\x7d"

end gophish

namespace query

/-- The field holds the zero value of its type: `0`, the empty string, or an empty
sequence. -/
def IsDefault : FieldValue → Prop
  | .int i => i = 0
  | .string s => s = ""
  | .strings ss => ss = []

instance (v : FieldValue) : Decidable (IsDefault v) := by
  cases v <;> unfold IsDefault <;> infer_instance

/-- The values a field is written with: the decimal form of an int, a string itself, and
each element of a sequence of strings. -/
def renderings : FieldValue → List String
  | .int i => [strconv.Itoa i]
  | .string s => [s]
  | .strings ss => ss

/-- The parameters a field contributes to the query: none when it is marked `omitempty`
and holds its default value, otherwise one per rendering, under the declared name. -/
def Field.params (f : Field) : List (String × String) :=
  if f.omitempty = true ∧ IsDefault f.value then []
  else (renderings f.value).map fun x => (f.name, x)

/-- The parameters of all the fields of a request object, in declaration order. -/
def declaredParams (fields : List Field) : List (String × String) :=
  fields.flatMap Field.params

end query

namespace url

/-- The text of a list of parameters: `key=value` for each, both parts query-escaped,
joined by `&`. -/
def joinPairs (ps : List (String × String)) : String :=
  "&".intercalate (ps.map fun p => QueryEscape p.1 ++ "=" ++ QueryEscape p.2)

/-- The text of a list of parameters written as they are: `key=value` for each, joined
by `&`. -/
def joinRawPairs (ps : List (String × String)) : String :=
  "&".intercalate (ps.map fun p => p.1 ++ "=" ++ p.2)

/-- The parameters are in ascending key order. -/
def KeysAscending (ps : List (String × String)) : Prop :=
  ps.Pairwise fun p q => p.1 ≤ q.1

/-- The bytes of a text in UTF-8, as the encoder of the Lean library gives them. -/
def bytesOf (s : String) : List Nat :=
  s.toList.flatMap fun c => (String.utf8EncodeChar c).map UInt8.toNat

/-- The characters that query-escaping keeps: letters, digits, `-`, `_`, `.` and `~`. -/
def keptChars : List Char :=
  "ABCDEFGHIJKLMNOPQRSTUVWXYZabcdefghijklmnopqrstuvwxyz0123456789-_.~".toList

/-- The hexadecimal digits, upper case. -/
def hexDigits : List Char := "0123456789ABCDEF".toList

/-- The form `%XX` of a byte: a percent sign and its two hexadecimal digits. -/
def percentEncoded (b : Nat) : List Char :=
  ['%', hexDigits.getD (b / 16) '?', hexDigits.getD (b % 16) '?']

/-- A byte as query-escaping writes it: a space as `+`, a kept character as itself, every
other byte as `%XX`. -/
def escapedByte (b : Nat) : List Char :=
  if b = 32 then ['+']
  else if Char.ofNat b ∈ keptChars then [Char.ofNat b]
  else percentEncoded b

/-- A text query-escaped: its UTF-8 bytes, each written as `escapedByte` has it. -/
def escapedText (s : String) : String :=
  String.mk ((bytesOf s).flatMap escapedByte)

/-- The text of a list of parameters: `key=value` for each, key and value written as
`escapedText` has them, joined by `&`. -/
def joinEscapedPairs (ps : List (String × String)) : String :=
  "&".intercalate (ps.map fun p => escapedText p.1 ++ "=" ++ escapedText p.2)

end url

namespace url

/-- The parameters that `Encode` writes, in the order in which it writes them: the keys
in sorted order, each with its values. -/
def Values.written (v : Values) : List (String × String) :=
  (sortStrings (v.map Prod.fst)).flatMap fun k => (v.get k).map fun x => (k, x)

end url

namespace gophish

/-- The query string that `do` encodes for a request object with the given fields and
API key has the parameter list `ps`: no parameter is keyed by a field that holds its
default value, and every field that holds another value appears under its declared name
with each of its renderings. -/
def EncodesFields (apiKey : String) (fields : List query.Field) : Prop :=
  ∃ vals, query.Values (.structPtr (some fields)) = .ok vals ∧
    url.Values.Encode (url.Values.Add vals "apikey" apiKey) =
      url.joinPairs (url.Values.written (url.Values.Add vals "apikey" apiKey)) ∧
    ∀ f ∈ fields,
      (query.IsDefault f.value →
        ∀ p ∈ url.Values.written (url.Values.Add vals "apikey" apiKey), p.1 ≠ f.name) ∧
      (¬ query.IsDefault f.value →
        ∀ x ∈ query.renderings f.value,
          (f.name, x) ∈ url.Values.written (url.Values.Add vals "apikey" apiKey))

end gophish

namespace gophish

/-- Leap years of the Gregorian calendar. -/
def IsLeapYear (year : Nat) : Prop :=
  year % 4 = 0 ∧ (year % 100 ≠ 0 ∨ year % 400 = 0)

instance (year : Nat) : Decidable (IsLeapYear year) := by
  unfold IsLeapYear
  infer_instance

/-- The number of days of a month of the Gregorian calendar. -/
def daysInMonth (year month : Nat) : Nat :=
  if month = 2 then (if IsLeapYear year then 29 else 28)
  else if month = 4 ∨ month = 6 ∨ month = 9 ∨ month = 11 then 30
  else 31

/-- A calendar day of the years 0 to 9999. -/
def IsCalendarDay (year month day : Nat) : Prop :=
  year ≤ 9999 ∧ 1 ≤ month ∧ month ≤ 12 ∧ 1 ≤ day ∧ day ≤ daysInMonth year month

/-- The decimal digit of `n` at the given power of ten. -/
def digitAt (n pow : Nat) : Char := Char.ofNat (48 + n / pow % 10)

/-- The `YYYY-MM-DD` text of a day. -/
def dateText (year month day : Nat) : String :=
  String.mk
    [ digitAt year 1000, digitAt year 100, digitAt year 10, digitAt year 1, '-',
      digitAt month 10, digitAt month 1, '-', digitAt day 10, digitAt day 1 ]

/-- The string is a well-formed `YYYY-MM-DD` date: the text of a calendar day. -/
def WellFormedDate (s : String) : Prop :=
  ∃ year month day, IsCalendarDay year month day ∧ s = dateText year month day

/-- The number of days from 1 January 1970 to a calendar day, counted directly: whole
years, the leap days of the years before, the months before, and the days before. -/
def unixDay (year month day : Nat) : Int :=
  365 * (year : Int) + ((year + 3) / 4 : Nat) - ((year + 99) / 100 : Nat) + ((year + 399) / 400 : Nat)
    + ([0, 31, 59, 90, 120, 151, 181, 212, 243, 273, 304, 334].getD (month - 1) 0 : Nat)
    + (if IsLeapYear year ∧ 3 ≤ month then 1 else 0) + ((day : Int) - 1) - 719528

end gophish

namespace gophish

instance (year month day : Nat) : Decidable (IsCalendarDay year month day) := by
  unfold IsCalendarDay
  infer_instance

end gophish

namespace gophish

/-- An endpoint call returns either a response with a nil error or a nil response with an
error: whatever it returns has one of these two shapes, and it does return unless the
throttle is the nil channel, on which the call blocks forever. -/
def ReturnsResponseXorError {F α : Type} (c : Client)
    (run : Run (Option α × Option (Error F))) : Prop :=
  (c.throttle ≠ none → run.result ≠ none) ∧
  ∀ out, run.result = some out →
    (∃ resp, out = (some resp, none)) ∨ (∃ err, out = (none, some err))

/-- A body in which `count` has the wrong type and `data` holds one record. -/
def halfDecodedBody : String :=
  "\x7b\"response\":\x7b\"count\":\"five\",\"data\":[\x7b\"showid\":7\x7d]\x7d\x7d"

end gophish

/-! ## Properties -/

namespace strconv

theorem digit_isDigit (d : Nat) (h : d < 10) :
    (('0' ≤ Char.ofNat (48 + d) && Char.ofNat (48 + d) ≤ '9') = true) ∧
      (Char.ofNat (48 + d)).toNat - 48 = d := by
  interval_cases d <;> decide

theorem formatDigits_append (fuel n : Nat) (acc : List Char) :
    formatDigits fuel n acc = formatDigits fuel n [] ++ acc := by
  induction fuel generalizing n acc with
  | zero => simp [formatDigits]
  | succ k ih =>
    unfold formatDigits
    split
    · simp
    · rw [ih (n / 10) (Char.ofNat (48 + n % 10) :: acc), ih (n / 10) [Char.ofNat (48 + n % 10)]]
      simp

theorem parseDigits_append (xs ys : List Char) (a : Nat) :
    parseDigits (xs ++ ys) a = (parseDigits xs a).bind (parseDigits ys) := by
  induction xs generalizing a with
  | nil => simp [parseDigits]
  | cons c cs ih =>
    simp only [List.cons_append, parseDigits]
    split
    · exact ih _
    · simp

theorem parseDigits_formatDigits (fuel n : Nat) (h : n < fuel) :
    parseDigits (formatDigits fuel n []) 0 = some n := by
  induction fuel generalizing n with
  | zero => omega
  | succ k ih =>
    unfold formatDigits
    split
    · rename_i h10
      have hd := digit_isDigit n h10
      simp [parseDigits, hd.1, hd.2]
    · rename_i h10
      have hd := digit_isDigit (n % 10) (Nat.mod_lt _ (by omega))
      rw [formatDigits_append, parseDigits_append, ih (n / 10) (by omega)]
      simp only [Option.some_bind, parseDigits, hd.1, hd.2, if_true]
      congr 1
      omega

theorem formatDigits_ne_nil (fuel n : Nat) : formatDigits (fuel + 1) n [] ≠ [] := by
  unfold formatDigits
  split
  · simp
  · rw [formatDigits_append]
    simp

theorem formatDigits_head (fuel n : Nat) :
    ∃ c cs, formatDigits (fuel + 1) n [] = c :: cs ∧ ('0' ≤ c && c ≤ '9') = true := by
  induction fuel generalizing n with
  | zero =>
    unfold formatDigits
    split
    · rename_i h10
      exact ⟨_, [], rfl, (digit_isDigit n h10).1⟩
    · exact ⟨_, [], by simp [formatDigits], (digit_isDigit (n % 10) (Nat.mod_lt _ (by omega))).1⟩
  | succ k ih =>
    unfold formatDigits
    split
    · rename_i h10
      exact ⟨_, [], rfl, (digit_isDigit n h10).1⟩
    · obtain ⟨c, cs, h, hc⟩ := ih (n / 10)
      rw [formatDigits_append, h]
      exact ⟨c, cs ++ [Char.ofNat (48 + n % 10)], by simp, hc⟩

theorem parseInt_itoa (i : Int) (h : IsInt64 i) : ParseInt (Itoa i) = some i := by
  obtain ⟨hlo, hhi⟩ := h
  obtain ⟨c, cs, hcs, hc⟩ := formatDigits_head i.natAbs i.natAbs
  have hval := parseDigits_formatDigits (i.natAbs + 1) i.natAbs (by omega)
  rw [hcs] at hval
  by_cases hneg : i < 0
  · have hs : (Itoa i).toList = '-' :: c :: cs := by simp [Itoa, hneg, hcs]
    have hi : -Int.ofNat i.natAbs = i := by
      show -((i.natAbs : Nat) : Int) = i
      omega
    simp only [ParseInt, hs, hval, Option.map_some', hi]
    rw [if_pos ⟨hlo, hhi⟩]
  · have hs : (Itoa i).toList = c :: cs := by simp [Itoa, hneg, FormatUint, hcs]
    have hp : c ≠ '+' := by
      intro hEq
      rw [hEq] at hc
      exact absurd hc (by decide)
    have hm : c ≠ '-' := by
      intro hEq
      rw [hEq] at hc
      exact absurd hc (by decide)
    have hi : Int.ofNat i.natAbs = i := by
      show ((i.natAbs : Nat) : Int) = i
      omega
    unfold ParseInt
    rw [hs]
    split
    · rename_i heq
      simp at heq
    · rename_i heq
      simp at heq
      exact absurd heq.1 hp
    · rename_i heq
      simp at heq
      exact absurd heq.1 hm
    · rename_i heq
      simp at heq
      exact absurd heq.1 hp
    · rename_i heq
      simp at heq
      exact absurd heq.1 hm
    · simp only [hval, Option.map_some', hi]
      rw [if_pos ⟨hlo, hhi⟩]

end strconv

namespace json

theorem firstError_none_left (b : Option UnmarshalTypeError) : firstError none b = b := rfl

theorem firstError_none_none : firstError none none = none := rfl

mutual
theorem toIface_ok {F : Type} (pf : String → Option F) :
    ∀ v : Value, Value.floatsInRange pf v = true → (toIface pf v).2 = none
  | .null, _ => rfl
  | .bool _, _ => rfl
  | .string _, _ => rfl
  | .number lit, h => by
    simp only [Value.floatsInRange] at h
    unfold toIface
    cases hp : pf lit with
    | none => simp [hp] at h
    | some f => rfl
  | .array elems, h => by
    simp only [Value.floatsInRange] at h
    unfold toIface
    exact toIfaceElems_ok pf elems h
  | .object members, h => by
    simp only [Value.floatsInRange] at h
    unfold toIface
    exact toIfaceMembers_ok pf members h []
theorem toIfaceElems_ok {F : Type} (pf : String → Option F) :
    ∀ vs : List Value, floatsInRangeElems pf vs = true → (toIfaceElems pf vs).2 = none
  | [], _ => rfl
  | v :: vs, h => by
    simp only [floatsInRangeElems, Bool.and_eq_true] at h
    unfold toIfaceElems
    simp only [toIface_ok pf v h.1, toIfaceElems_ok pf vs h.2, firstError_none_none]
theorem toIfaceMembers_ok {F : Type} (pf : String → Option F) :
    ∀ ms : List (String × Value), floatsInRangeMembers pf ms = true →
      ∀ m, (toIfaceMembers pf ms m).2 = none
  | [], _, _ => rfl
  | (k, v) :: ms, h, m => by
    simp only [floatsInRangeMembers, Bool.and_eq_true] at h
    unfold toIfaceMembers
    simp only [toIface_ok pf v h.1, toIfaceMembers_ok pf ms h.2, firstError_none_none]
end

theorem decodeInt_itoa (i x : Int) (h : IsInt64 i) :
    decodeInt (.number (strconv.Itoa i)) x = (i, none) := by
  simp [decodeInt, strconv.parseInt_itoa i h]

end json

namespace gophish

theorem decodeErrorResponse_envelope {F : Type} (pf : String → Option F) (code : Int)
    (message : String) (context : List (String × json.Value)) (hcode : IsInt64 code)
    (hctx : json.floatsInRangeMembers pf context = true) :
    decodeErrorResponse pf (errorEnvelope code message context) ErrorResponse.zero =
      (⟨code, some ⟨message, (json.toIfaceMembers pf context []).1⟩⟩, none) := by
  have h1 := json.toIfaceMembers_ok pf context hctx []
  simp [decodeErrorResponse, errorEnvelope, json.decodeStruct, json.decodeMembers,
    json.findField, field, json.decodeInt_itoa _ _ hcode, json.decodePtr,
    decodeErrorResponseBody, json.decodeString, json.decodeMap, h1, json.firstError,
    ErrorResponse.zero, ErrorResponseBody.zero, List.find?]

end gophish

namespace gophish

/-- What `do` returns once a response has been received. -/
theorem do_of_receives {F α : Type} (c : Client) (env : Env F) (method apiPath : String)
    (req : query.Input) (dec : json.Dec α) (resp : α) (status : Int) (body : String)
    (hrecv : c.receives env method apiPath req status body) :
    (c.do env method apiPath req dec resp).result =
      if status ≠ 200 then
        match json.Unmarshal (decodeErrorResponse env.parseFloat) body ErrorResponse.zero with
        | (_, some e) =>
          some (some (.wrapped (.unmarshal e) "unable to unmarshal json error"), resp)
        | (errResp, none) => some (some (.api errResp), resp)
      else
        some (errors.Wrap ((json.Unmarshal dec body resp).2.map Cause.unmarshal)
          "unable to umarshal json response", (json.Unmarshal dec body resp).1) := by
  obtain ⟨vals, hreq, res, hvals, hnew, hdo, hstatus, hbody⟩ := hrecv
  unfold Client.do
  simp only [hvals, hnew, hdo, hbody, hstatus]
  by_cases h : status ≠ 200
  · simp only [if_pos h]
    split <;> rfl
  · simp only [if_neg h]

/-- C1: when the response has a status code other than 200 and its body is a well-formed
error envelope with code `code` and message `message`, `do` fails with an `ErrorResponse`
value whose `ErrorCode` is `code` and whose `Response.Message` is `message`; the
destination is left as it was. -/
theorem do_fails_with_error_envelope {F α : Type} (c : Client) (env : Env F)
    (method apiPath : String) (req : query.Input) (dec : json.Dec α) (resp : α)
    (status : Int) (body : String) (code : Int) (message : String)
    (hrecv : c.receives env method apiPath req status body)
    (hstatus : status ≠ 200)
    (hbody : WellFormedErrorEnvelope env.parseFloat body code message) :
    ∃ (e : ErrorResponse F) (b : ErrorResponseBody F),
      (c.do env method apiPath req dec resp).result = some (some (Error.api e), resp) ∧
      e.ErrorCode = code ∧ e.Response = some b ∧ b.Message = message := by
  obtain ⟨context, hparse, hcode, hctx⟩ := hbody
  refine ⟨⟨code, some ⟨message, (json.toIfaceMembers env.parseFloat context []).1⟩⟩,
    ⟨message, (json.toIfaceMembers env.parseFloat context []).1⟩, ?_, rfl, rfl, rfl⟩
  rw [do_of_receives c env method apiPath req dec resp status body hrecv, if_pos hstatus]
  simp [json.Unmarshal, hparse, decodeErrorResponse_envelope env.parseFloat code message
    context hcode hctx]

theorem do_fails_with_error_envelope_witness :
    ∃ (e : ErrorResponse Unit) (b : ErrorResponseBody Unit),
      (testClient.do (mockEnv 401 badKeyBody) http.MethodGet "/setlists/latest" .nil
        decodeSetlistsResponse SetlistsResponse.zero).result
          = some (some (Error.api e), SetlistsResponse.zero) ∧
      e.ErrorCode = 3 ∧ e.Response = some b ∧ b.Message = "bad key" :=
  do_fails_with_error_envelope testClient (mockEnv 401 badKeyBody) http.MethodGet
    "/setlists/latest" .nil decodeSetlistsResponse SetlistsResponse.zero 401 badKeyBody 3
    "bad key" ⟨_, _, _, rfl, rfl, rfl, rfl, rfl⟩ (by decide) ⟨[], rfl, by decide, rfl⟩

end gophish

namespace json

theorem findField_mem {β : Type} (fields : List (String × β)) (key : String) (d : β)
    (h : findField fields key = some d) :
    ∃ name, (name, d) ∈ fields ∧ equalFold name key = true := by
  unfold findField at h
  split at h
  · rename_i f hf
    have hm := List.mem_of_find?_eq_some hf
    have hp := List.find?_some hf
    simp only [beq_iff_eq] at hp
    simp only [Option.some.injEq] at h
    refine ⟨f.1, ?_, ?_⟩
    · rw [← h]
      exact hm
    · rw [hp]
      simp [equalFold]
  · rename_i hnone
    rw [Option.map_eq_some'] at h
    obtain ⟨f, hf, hd⟩ := h
    have hm := List.mem_of_find?_eq_some hf
    have hp := List.find?_some hf
    refine ⟨f.1, ?_, hp⟩
    rw [← hd]
    exact hm

theorem decodeMembers_ok {α : Type} (fields : List (String × Dec α))
    (members : List (String × Value))
    (h : ∀ kv ∈ members, ∀ d, findField fields kv.1 = some d → ∀ x, (d kv.2 x).2 = none) :
    ∀ x, (decodeMembers fields members x).2 = none := by
  induction members with
  | nil => intro x; rfl
  | cons kv rest ih =>
    intro x
    obtain ⟨k, v⟩ := kv
    have ih' := ih (fun kv hkv => h kv (List.mem_cons_of_mem _ hkv))
    unfold decodeMembers
    split
    · exact ih' x
    · rename_i d hd
      have := h (k, v) (List.mem_cons_self _ _) d hd x
      simp only [this, ih', firstError_none_none]

theorem decodeElems_length {α : Type} (zero : α) (inner : Dec α) (vs : List Value) :
    ∀ old, (decodeElems zero inner vs old).1.length = vs.length := by
  induction vs with
  | nil => intro old; rfl
  | cons v vs ih =>
    intro old
    simp [decodeElems, ih]

theorem decodeElems_ok {α : Type} (zero : α) (inner : Dec α) (vs : List Value)
    (h : ∀ v ∈ vs, ∀ x, (inner v x).2 = none) :
    ∀ old, (decodeElems zero inner vs old).2 = none := by
  induction vs with
  | nil => intro old; rfl
  | cons v vs ih =>
    intro old
    have ih' := ih (fun w hw => h w (List.mem_cons_of_mem _ hw))
    simp [decodeElems, ih', h v (List.mem_cons_self _ _), firstError]

end json

namespace gophish

theorem field_int_ok {α : Type} (get : α → Int) (set : α → Int → α) (v : json.Value)
    (h : HasKind .int v) (x : α) : (field get set json.decodeInt v x).2 = none := by
  obtain ⟨i, hi, rfl⟩ := h
  simp [field, json.decodeInt_itoa _ _ hi]

theorem field_string_ok {α : Type} (get : α → String) (set : α → String → α)
    (v : json.Value) (h : HasKind .string v) (x : α) :
    (field get set json.decodeString v x).2 = none := by
  obtain ⟨s, rfl⟩ := h
  simp [field, json.decodeString]

/-- A struct decoder whose fields follow a declaration accepts the records of that
declaration. -/
theorem decodeStruct_record_ok {α : Type} (typeName : String)
    (fields : List (String × json.Dec α)) (schema : List (String × FieldKind))
    (hlink : ∀ name d, (name, d) ∈ fields →
      ∃ kind, (name, kind) ∈ schema ∧ ∀ v x, HasKind kind v → (d v x).2 = none)
    (v : json.Value) (hv : IsRecord schema v) (x : α) :
    (json.decodeStruct typeName fields v x).2 = none := by
  obtain ⟨members, rfl, hm⟩ := hv
  unfold json.decodeStruct
  apply json.decodeMembers_ok
  intro kv hkv d hd y
  obtain ⟨name, hmem, hfold⟩ := json.findField_mem fields kv.1 d hd
  obtain ⟨kind, hs, hok⟩ := hlink name d hmem
  exact hok kv.2 y (hm kv hkv (name, kind) hs hfold)

theorem show_fields_follow_schema : ∀ name d, (name, d) ∈ Show.jsonFields →
    ∃ kind, (name, kind) ∈ Show.schema ∧ ∀ v x, HasKind kind v → (d v x).2 = none := by
  intro name d h
  simp only [Show.jsonFields, List.mem_cons, Prod.mk.injEq, List.mem_singleton,
    List.not_mem_nil, or_false] at h
  rcases h with h | h | h | h | h | h | h | h | h | h | h | h | h <;>
    obtain ⟨rfl, rfl⟩ := h <;>
    first
      | exact ⟨.int, by simp [Show.schema], fun v x hk => field_int_ok _ _ v hk x⟩
      | exact ⟨.string, by simp [Show.schema], fun v x hk => field_string_ok _ _ v hk x⟩

theorem setlist_fields_follow_schema : ∀ name d, (name, d) ∈ Setlist.jsonFields →
    ∃ kind, (name, kind) ∈ Setlist.schema ∧ ∀ v x, HasKind kind v → (d v x).2 = none := by
  intro name d h
  simp only [Setlist.jsonFields, List.mem_cons, Prod.mk.injEq, List.mem_singleton,
    List.not_mem_nil, or_false] at h
  rcases h with h | h | h | h | h | h | h | h | h | h | h | h | h | h | h <;>
    obtain ⟨rfl, rfl⟩ := h <;>
    first
      | exact ⟨.int, by simp [Setlist.schema], fun v x hk => field_int_ok _ _ v hk x⟩
      | exact ⟨.string, by simp [Setlist.schema], fun v x hk => field_string_ok _ _ v hk x⟩

end gophish

namespace gophish

theorem decodePtr_record_ok {α : Type} (zero : α) (inner : json.Dec α)
    (schema : List (String × FieldKind))
    (hin : ∀ v x, IsRecord schema v → (inner v x).2 = none)
    (v : json.Value) (hv : IsRecord schema v) (p : Option α) :
    (json.decodePtr zero inner v p).2 = none := by
  obtain ⟨members, rfl, hm⟩ := hv
  exact hin _ _ ⟨members, rfl, hm⟩

theorem decodeShowsQueryResponse_envelope (errorCode : Int) (errorMessage : Option String)
    (count : Int) (records : List json.Value) (he : IsInt64 errorCode) (hc : IsInt64 count)
    (hr : ∀ r ∈ records, IsRecord Show.schema r) :
    ∃ data : List (Option Show), data.length = records.length ∧
      decodeShowsQueryResponse (successEnvelope errorCode errorMessage count records)
        ShowsQueryResponse.zero =
      (⟨some ⟨errorCode, errorMessage.getD ""⟩, some ⟨count, data⟩⟩, none) := by
  have hok := json.decodeElems_ok (none : Option Show) (json.decodePtr Show.zero decodeShow)
    records (fun v hv x => decodePtr_record_ok Show.zero decodeShow Show.schema
      (fun w y hw => decodeStruct_record_ok _ _ _ show_fields_follow_schema w hw y) v (hr v hv) x) []
  refine ⟨(json.decodeElems (none : Option Show) (json.decodePtr Show.zero decodeShow)
    records []).1, json.decodeElems_length _ _ _ _, ?_⟩
  cases errorMessage <;>
    simp [decodeShowsQueryResponse, successEnvelope, json.decodeStruct, json.decodeMembers,
      json.findField, field, headerFields, json.decodeInt_itoa _ _ he,
      json.decodeInt_itoa _ _ hc, json.decodePtr, decodeShowsQueryResponseBody,
      json.decodeString, json.decodeSlice, hok, json.firstError, ShowsQueryResponse.zero,
      ShowsQueryResponseBody.zero, ResponseHeader.zero, List.find?]

theorem decodeSetlistsResponse_envelope (errorCode : Int) (errorMessage : Option String)
    (count : Int) (records : List json.Value) (he : IsInt64 errorCode) (hc : IsInt64 count)
    (hr : ∀ r ∈ records, IsRecord Setlist.schema r) :
    ∃ data : List (Option Setlist), data.length = records.length ∧
      decodeSetlistsResponse (successEnvelope errorCode errorMessage count records)
        SetlistsResponse.zero =
      (⟨some ⟨errorCode, errorMessage.getD ""⟩, some ⟨count, data⟩⟩, none) := by
  have hok := json.decodeElems_ok (none : Option Setlist)
    (json.decodePtr Setlist.zero decodeSetlist)
    records (fun v hv x => decodePtr_record_ok Setlist.zero decodeSetlist Setlist.schema
      (fun w y hw => decodeStruct_record_ok _ _ _ setlist_fields_follow_schema w hw y) v (hr v hv) x) []
  refine ⟨(json.decodeElems (none : Option Setlist)
    (json.decodePtr Setlist.zero decodeSetlist) records []).1,
    json.decodeElems_length _ _ _ _, ?_⟩
  cases errorMessage <;>
    simp [decodeSetlistsResponse, successEnvelope, json.decodeStruct, json.decodeMembers,
      json.findField, field, headerFields, json.decodeInt_itoa _ _ he,
      json.decodeInt_itoa _ _ hc, json.decodePtr, decodeSetlistsResponseBody,
      json.decodeString, json.decodeSlice, hok, json.firstError, SetlistsResponse.zero,
      SetlistsResponseBody.zero, ResponseHeader.zero, List.find?]

/-- C2: when the response has status code 200 and its body is a well-formed success
envelope with count `n` and a data sequence `records`, `ShowsQuery` and `SetlistsGet`
return no error and a response whose `Response.Count` is `n` and whose `Response.Data`
has the length of `records`. -/
theorem endpoints_decode_success_envelope {F : Type} (c : Client) (env : Env F)
    (body : String) (n : Int) (records : List json.Value) :
    (∀ req : Option ShowsQueryRequest,
      c.receives env http.MethodPost "/shows/query"
        (.structPtr (req.map ShowsQueryRequest.fields)) 200 body →
      WellFormedSuccessEnvelope Show.schema body n records →
      ∃ resp b, (c.ShowsQuery env req).result = some (some resp, none) ∧
        resp.Response = some b ∧ b.Count = n ∧ b.Data.length = records.length) ∧
    (∀ req : Option SetlistsGetRequest,
      c.receives env http.MethodGet "/setlists/get"
        (.structPtr (req.map SetlistsGetRequest.fields)) 200 body →
      WellFormedSuccessEnvelope Setlist.schema body n records →
      ∃ resp b, (c.SetlistsGet env req).result = some (some resp, none) ∧
        resp.Response = some b ∧ b.Count = n ∧ b.Data.length = records.length) := by
  constructor
  · intro req hrecv hwf
    obtain ⟨errorCode, errorMessage, hparse, he, hc, hr⟩ := hwf
    obtain ⟨data, hlen, hdec⟩ :=
      decodeShowsQueryResponse_envelope errorCode errorMessage n records he hc hr
    refine ⟨⟨some ⟨errorCode, errorMessage.getD ""⟩, some ⟨n, data⟩⟩, ⟨n, data⟩, ?_, rfl, rfl,
      hlen⟩
    simp [Client.ShowsQuery, do_of_receives _ _ _ _ _ _ _ _ _ hrecv, json.Unmarshal, hparse,
      hdec, errors.Wrap]
  · intro req hrecv hwf
    obtain ⟨errorCode, errorMessage, hparse, he, hc, hr⟩ := hwf
    obtain ⟨data, hlen, hdec⟩ :=
      decodeSetlistsResponse_envelope errorCode errorMessage n records he hc hr
    refine ⟨⟨some ⟨errorCode, errorMessage.getD ""⟩, some ⟨n, data⟩⟩, ⟨n, data⟩, ?_, rfl, rfl,
      hlen⟩
    simp [Client.SetlistsGet, do_of_receives _ _ _ _ _ _ _ _ _ hrecv, json.Unmarshal, hparse,
      hdec, errors.Wrap]

end gophish

namespace strconv

theorem parseInt_range (s : String) (i : Int) (h : ParseInt s = some i) : IsInt64 i := by
  unfold ParseInt at h
  simp only at h
  split at h
  · simp at h
  · split at h
    · rename_i hr
      simp only [Option.some.injEq] at h
      rw [← h]
      exact hr
    · simp at h

end strconv

namespace json

mutual
theorem Value.eq_of_beq : ∀ a b : Value, Value.beq a b = true → a = b
  | .null, b, h => by cases b <;> simp_all [Value.beq]
  | .bool x, b, h => by cases b <;> simp_all [Value.beq]
  | .number x, b, h => by cases b <;> simp_all [Value.beq]
  | .string x, b, h => by cases b <;> simp_all [Value.beq]
  | .array xs, b, h => by
    cases b with
    | array ys =>
      simp only [Value.beq] at h
      rw [eq_of_beqElems xs ys h]
    | _ => simp [Value.beq] at h
  | .object xs, b, h => by
    cases b with
    | object ys =>
      simp only [Value.beq] at h
      rw [eq_of_beqMembers xs ys h]
    | _ => simp [Value.beq] at h
theorem eq_of_beqElems : ∀ xs ys : List Value, beqElems xs ys = true → xs = ys
  | [], ys, h => by cases ys <;> simp_all [beqElems]
  | x :: xs, ys, h => by
    cases ys with
    | nil => simp [beqElems] at h
    | cons y ys =>
      simp only [beqElems, Bool.and_eq_true] at h
      rw [Value.eq_of_beq x y h.1, eq_of_beqElems xs ys h.2]
theorem eq_of_beqMembers :
    ∀ xs ys : List (String × Value), beqMembers xs ys = true → xs = ys
  | [], ys, h => by cases ys <;> simp_all [beqMembers]
  | (j, x) :: xs, ys, h => by
    cases ys with
    | nil => simp [beqMembers] at h
    | cons y ys =>
      obtain ⟨k, y⟩ := y
      simp only [beqMembers, Bool.and_eq_true, beq_iff_eq] at h
      rw [h.1.1, Value.eq_of_beq x y h.1.2, eq_of_beqMembers xs ys h.2]
end

end json

namespace gophish

theorem hasKind_of_hasKindB (kind : FieldKind) (v : json.Value) (h : hasKindB kind v = true) :
    HasKind kind v := by
  cases kind <;> cases v <;> simp [hasKindB] at h
  · rename_i lit
    split at h
    · rename_i i hi
      simp only [beq_iff_eq] at h
      exact ⟨i, strconv.parseInt_range _ _ hi, by rw [h]⟩
    · simp at h
  · exact ⟨_, rfl⟩

theorem isRecord_of_isRecordB (schema : List (String × FieldKind)) (v : json.Value)
    (h : isRecordB schema v = true) : IsRecord schema v := by
  cases v <;> simp only [isRecordB] at h <;> try exact absurd h (by decide)
  rename_i members
  refine ⟨members, rfl, ?_⟩
  intro kv hkv f hf hfold
  rw [List.all_eq_true] at h
  have h1 := h kv hkv
  rw [List.all_eq_true] at h1
  have h2 := h1 f hf
  simp only [hfold, Bool.not_true, Bool.false_or] at h2
  exact hasKind_of_hasKindB _ _ h2

theorem wellFormed_of_wellFormedB (schema : List (String × FieldKind)) (body : String)
    (errorCode : Int) (errorMessage : Option String) (count : Int)
    (h : wellFormedSuccessEnvelopeB schema body errorCode errorMessage count = true) :
    WellFormedSuccessEnvelope schema body count (dataOf body) := by
  unfold wellFormedSuccessEnvelopeB at h
  simp only [Bool.and_eq_true, decide_eq_true_eq] at h
  obtain ⟨⟨⟨hp, he⟩, hc⟩, hr⟩ := h
  refine ⟨errorCode, errorMessage, ?_, he, hc, ?_⟩
  · split at hp
    · rename_i v hv
      rw [hv, json.Value.eq_of_beq _ _ hp]
    · simp at hp
  · intro r hrm
    rw [List.all_eq_true] at hr
    exact isRecord_of_isRecordB schema r (hr r hrm)

end gophish

namespace url

theorem Values.keys_Add (v : Values) (k x : String) :
    (Values.Add v k x).map Prod.fst =
      if k ∈ v.map Prod.fst then v.map Prod.fst else v.map Prod.fst ++ [k] := by
  induction v with
  | nil => simp [Values.Add]
  | cons e rest ih =>
    obtain ⟨k', vs⟩ := e
    unfold Values.Add
    by_cases h : k' = k
    · subst h
      simp
    · have h' : ¬ k = k' := fun hh => h hh.symm
      simp only [beq_iff_eq, h, if_false, List.map_cons, ih, List.mem_cons, h', false_or]
      split <;> simp

theorem Values.nodup_Add (v : Values) (k x : String) (h : (v.map Prod.fst).Nodup) :
    ((Values.Add v k x).map Prod.fst).Nodup := by
  rw [Values.keys_Add]
  split
  · exact h
  · rename_i hk
    rw [List.nodup_append]
    refine ⟨h, List.nodup_singleton _, ?_⟩
    intro a ha hb
    simp only [List.mem_singleton] at hb
    subst hb
    exact hk ha

theorem Values.flat_Add (v : Values) (k x : String) :
    ((Values.Add v k x).flatMap fun e => e.2.map fun y => (e.1, y)).Perm
      ((v.flatMap fun e => e.2.map fun y => (e.1, y)) ++ [(k, x)]) := by
  induction v with
  | nil => simp [Values.Add]
  | cons e rest ih =>
    obtain ⟨k', vs⟩ := e
    unfold Values.Add
    by_cases h : k' = k
    · subst h
      simp only [beq_self_eq_true, if_true, List.flatMap_cons, List.map_append, List.map_cons,
        List.map_nil, List.append_assoc]
      apply List.Perm.append_left
      exact List.perm_append_comm
    · simp only [beq_iff_eq, h, if_false, List.flatMap_cons, List.append_assoc]
      exact List.Perm.append_left _ ih

end url

namespace query

theorem string_length_eq_zero (s : String) : s.length = 0 ↔ s = "" := by
  constructor
  · intro h
    have : s.data = [] := List.length_eq_zero.mp h
    exact String.ext this
  · intro h
    rw [h]
    rfl

theorem isEmptyValue_iff (v : FieldValue) : isEmptyValue v = true ↔ IsDefault v := by
  cases v with
  | int i => simp [isEmptyValue, IsDefault]
  | string s => simp [isEmptyValue, IsDefault, string_length_eq_zero]
  | strings ss => simp [isEmptyValue, IsDefault]

theorem foldl_Add_nodup (name : String) (ss : List String) (v : url.Values)
    (h : (v.map Prod.fst).Nodup) :
    ((ss.foldl (fun vs s => url.Values.Add vs name s) v).map Prod.fst).Nodup := by
  induction ss generalizing v with
  | nil => exact h
  | cons s ss ih => exact ih _ (url.Values.nodup_Add v name s h)

theorem foldl_Add_flat (name : String) (ss : List String) (v : url.Values) :
    ((ss.foldl (fun vs s => url.Values.Add vs name s) v).flatMap
        fun e => e.2.map fun y => (e.1, y)).Perm
      ((v.flatMap fun e => e.2.map fun y => (e.1, y)) ++ ss.map fun x => (name, x)) := by
  induction ss generalizing v with
  | nil => simp
  | cons s ss ih =>
    simp only [List.foldl_cons, List.map_cons]
    refine (ih _).trans ?_
    have := (url.Values.flat_Add v name s).append_right (ss.map fun x => (name, x))
    simpa using this

theorem reflectValue_nodup (fields : List Field) (v : url.Values)
    (h : (v.map Prod.fst).Nodup) : ((reflectValue v fields).map Prod.fst).Nodup := by
  induction fields generalizing v with
  | nil => exact h
  | cons f rest ih =>
    unfold reflectValue
    split
    · exact ih v h
    · split
      · exact ih _ (foldl_Add_nodup _ _ v h)
      · exact ih _ (url.Values.nodup_Add v _ _ h)
      · exact ih _ (url.Values.nodup_Add v _ _ h)

theorem reflectValue_flat (fields : List Field) (v : url.Values) :
    ((reflectValue v fields).flatMap fun e => e.2.map fun y => (e.1, y)).Perm
      ((v.flatMap fun e => e.2.map fun y => (e.1, y)) ++ declaredParams fields) := by
  induction fields generalizing v with
  | nil => simp [reflectValue, declaredParams]
  | cons f rest ih =>
    unfold reflectValue
    have hd : declaredParams (f :: rest) = f.params ++ declaredParams rest := by
      simp [declaredParams]
    rw [hd]
    split
    · rename_i hskip
      simp only [Bool.and_eq_true, isEmptyValue_iff] at hskip
      have hp : f.params = [] := by simp [Field.params, hskip]
      rw [hp]
      simpa using ih v
    · rename_i hskip
      simp only [Bool.and_eq_true, isEmptyValue_iff] at hskip
      have hp : f.params = (renderings f.value).map fun x => (f.name, x) := by
        simp [Field.params, hskip]
      rw [hp, ← List.append_assoc]
      split
      · rename_i ss hv
        refine (ih _).trans (List.Perm.append_right _ ?_)
        simpa [hv, renderings] using foldl_Add_flat f.name ss v
      · rename_i i hv
        refine (ih _).trans (List.Perm.append_right _ ?_)
        simpa [hv, renderings] using url.Values.flat_Add v f.name (strconv.Itoa i)
      · rename_i s hv
        refine (ih _).trans (List.Perm.append_right _ ?_)
        simpa [hv, renderings] using url.Values.flat_Add v f.name s

end query

namespace url

/-- One step of the buffer in `Values.Encode`. -/
theorem encodeKey_foldl (ke : String) (vs : List String) (buf : String) :
    encodeKey ke vs buf =
      (vs.map fun x => ke ++ "=" ++ QueryEscape x).foldl
        (fun b p => (if b.length > 0 then b ++ "&" else b) ++ p) buf := by
  induction vs generalizing buf with
  | nil => rfl
  | cons x xs ih =>
    simp only [encodeKey, List.map_cons, List.foldl_cons, ih]
    congr 1
    simp only [String.append_assoc]

theorem encodeKeys_foldl (v : Values) (ks : List String) (buf : String) :
    encodeKeys v ks buf =
      ((ks.flatMap fun k => (v.get k).map fun x => (k, x)).map
          fun p => QueryEscape p.1 ++ "=" ++ QueryEscape p.2).foldl
        (fun b p => (if b.length > 0 then b ++ "&" else b) ++ p) buf := by
  induction ks generalizing buf with
  | nil => rfl
  | cons k ks ih =>
    simp only [encodeKeys, ih, encodeKey_foldl, List.flatMap_cons, List.map_append,
      List.foldl_append, List.map_map]
    rfl

theorem foldl_go (acc : String) (ps : List String) (h : acc.length > 0) :
    ps.foldl (fun b p => (if b.length > 0 then b ++ "&" else b) ++ p) acc =
      String.intercalate.go acc "&" ps := by
  induction ps generalizing acc with
  | nil => rfl
  | cons p ps ih =>
    simp only [List.foldl_cons, String.intercalate.go, if_pos h]
    apply ih
    simp only [String.length_append]
    omega

theorem foldl_intercalate (ps : List String) (h : ∀ p ∈ ps, p.length > 0) :
    ps.foldl (fun b p => (if b.length > 0 then b ++ "&" else b) ++ p) "" =
      "&".intercalate ps := by
  cases ps with
  | nil => rfl
  | cons p ps =>
    have hp := h p (List.mem_cons_self _ _)
    simp only [List.foldl_cons, String.intercalate]
    have h0 : ¬ ("".length > 0) := by decide
    rw [if_neg h0, String.empty_append]
    exact foldl_go p ps hp

theorem Values.Encode_eq (v : Values) : Values.Encode v = joinPairs (Values.written v) := by
  unfold Values.Encode joinPairs Values.written
  rw [encodeKeys_foldl]
  apply foldl_intercalate
  intro p hp
  rw [List.mem_map] at hp
  obtain ⟨q, _, rfl⟩ := hp
  simp only [String.length_append]
  have : "=".length = 1 := rfl
  omega

theorem Values.get_of_mem (v : Values) (h : (v.map Prod.fst).Nodup) (e : String × List String)
    (he : e ∈ v) : Values.get v e.1 = e.2 := by
  induction v with
  | nil => simp at he
  | cons a rest ih =>
    rw [List.map_cons, List.nodup_cons] at h
    rcases List.mem_cons.mp he with rfl | hr
    · simp [Values.get]
    · have hne : a.1 ≠ e.1 := by
        intro hEq
        exact h.1 (hEq ▸ List.mem_map_of_mem Prod.fst hr)
      have := ih h.2 hr
      have hb : (a.1 == e.1) = false := by simp [hne]
      unfold Values.get at this ⊢
      rw [List.find?_cons, hb]
      exact this

theorem Values.written_perm (v : Values) (h : (v.map Prod.fst).Nodup) :
    (Values.written v).Perm (v.flatMap fun e => e.2.map fun y => (e.1, y)) := by
  unfold Values.written sortStrings
  refine ((List.perm_insertionSort _ _).flatMap_right _).trans ?_
  rw [List.flatMap_map]
  apply List.Perm.of_eq
  apply List.flatMap_congr
  intro e he
  rw [Values.get_of_mem v h e he]

theorem Values.written_ascending (v : Values) : KeysAscending (Values.written v) := by
  unfold Values.written KeysAscending
  rw [List.pairwise_flatMap]
  constructor
  · intro k _
    rw [List.pairwise_map]
    exact List.pairwise_of_forall (fun _ _ => le_refl _)
  · have hs : List.Sorted (fun a b : String => a ≤ b) (sortStrings (v.map Prod.fst)) :=
      List.sorted_insertionSort _ _
    refine List.Pairwise.imp ?_ hs
    intro a b hab x hx y hy
    rw [List.mem_map] at hx hy
    obtain ⟨_, _, rfl⟩ := hx
    obtain ⟨_, _, rfl⟩ := hy
    exact hab

end url

namespace gophish

/-- The parameters of the query string of `do`, up to order. -/
theorem written_perm_declared (apiKey : String) (fields : List query.Field) :
    (url.Values.written (url.Values.Add (query.reflectValue [] fields) "apikey" apiKey)).Perm
      (query.declaredParams fields ++ [("apikey", apiKey)]) := by
  have hn : ((query.reflectValue [] fields).map Prod.fst).Nodup :=
    query.reflectValue_nodup fields [] (by simp)
  refine (url.Values.written_perm _ (url.Values.nodup_Add _ _ _ hn)).trans ?_
  refine (url.Values.flat_Add _ _ _).trans (List.Perm.append_right _ ?_)
  simpa using query.reflectValue_flat fields []

theorem encodesFields_of_names (apiKey : String) (fields : List query.Field)
    (homit : fields.all (fun f => f.omitempty) = true)
    (hnodup : (fields.map fun f => f.name).Nodup)
    (hkey : "apikey" ∉ fields.map fun f => f.name) : EncodesFields apiKey fields := by
  refine ⟨query.reflectValue [] fields, rfl, url.Values.Encode_eq _, ?_⟩
  intro f hf
  have hperm := written_perm_declared apiKey fields
  have hof : f.omitempty = true := (List.all_eq_true.mp homit) f hf
  constructor
  · intro hdef p hp
    rw [hperm.mem_iff, List.mem_append] at hp
    rcases hp with hp | hp
    · simp only [query.declaredParams, List.mem_flatMap] at hp
      obtain ⟨g, hg, hpg⟩ := hp
      intro hname
      by_cases hgd : g.omitempty = true ∧ query.IsDefault g.value
      · simp [query.Field.params, hgd] at hpg
      · simp only [query.Field.params, hgd, if_false, List.mem_map] at hpg
        obtain ⟨x, _, rfl⟩ := hpg
        have hgf : g = f :=
          List.inj_on_of_nodup_map hnodup hg hf hname
        rw [hgf] at hgd
        exact hgd ⟨hof, hdef⟩
    · simp only [List.mem_singleton] at hp
      rw [hp]
      intro h
      apply hkey
      rw [List.mem_map]
      exact ⟨f, hf, h.symm⟩
  · intro hdef x hx
    rw [hperm.mem_iff, List.mem_append]
    left
    simp only [query.declaredParams, List.mem_flatMap]
    refine ⟨f, hf, ?_⟩
    have : ¬ (f.omitempty = true ∧ query.IsDefault f.value) := fun h => hdef h.2
    simp only [query.Field.params, this, if_false, List.mem_map]
    exact ⟨x, hx, rfl⟩

/-- C3: for every request object, a field that holds its default value (`0`, the empty
string, an empty sequence) contributes no key to the encoded query string, and every
field that holds another value appears in it under its declared parameter name with its
value. -/
theorem default_fields_omitted_others_encoded (apiKey : String) :
    (∀ r : ShowsQueryRequest, EncodesFields apiKey r.fields) ∧
    (∀ r : SetlistsGetRequest, EncodesFields apiKey r.fields) ∧
    (∀ r : SetlistsRecentRequest, EncodesFields apiKey r.fields) := by
  refine ⟨fun r => ?_, fun r => ?_, fun r => ?_⟩
  · apply encodesFields_of_names
    · rfl
    · simp only [ShowsQueryRequest.fields, List.map_cons, List.map_nil]
      decide
    · simp only [ShowsQueryRequest.fields, List.map_cons, List.map_nil]
      decide
  · apply encodesFields_of_names
    · rfl
    · simp only [SetlistsGetRequest.fields, List.map_cons, List.map_nil]
      decide
    · simp only [SetlistsGetRequest.fields, List.map_cons, List.map_nil]
      decide
  · apply encodesFields_of_names
    · rfl
    · simp only [SetlistsRecentRequest.fields, List.map_cons, List.map_nil]
      decide
    · simp only [SetlistsRecentRequest.fields, List.map_cons, List.map_nil]
      decide

end gophish

namespace http

theorem NewRequest_url (parseURL : String → Bool) (method url : String) (q : Request)
    (h : NewRequest parseURL method url = .ok q) : q.URL = url := by
  unfold NewRequest at h
  split_ifs at h
  simp only [Except.ok.injEq] at h
  rw [← h]

theorem NewRequest_ok (parseURL : String → Bool) (method url : String)
    (hm : validMethod method = true) (hu : parseURL url = true) :
    NewRequest parseURL method url = .ok ⟨method, url⟩ := by
  have hne : method ≠ "" := by
    intro h
    rw [h] at hm
    exact absurd hm (by decide)
  simp [NewRequest, defaultMethod, hne, hm, hu]

end http

namespace url

theorem or_192 (m : Nat) (h : m < 32) : m ||| 192 = 192 + m := by
  interval_cases m <;> rfl

theorem or_128 (m : Nat) (h : m < 64) : m ||| 128 = 128 + m := by
  interval_cases m <;> rfl

theorem or_224 (m : Nat) (h : m < 16) : m ||| 224 = 224 + m := by
  interval_cases m <;> rfl

theorem or_240 (m : Nat) (h : m < 8) : m ||| 240 = 240 + m := by
  interval_cases m <;> rfl

theorem uint8_toNat_or (a b : UInt8) : (a ||| b).toNat = a.toNat ||| b.toNat := by
  show (a.toBitVec ||| b.toBitVec).toNat = _
  simp [UInt8.toNat]

theorem uint32_toUInt8_toNat (v : UInt32) : v.toUInt8.toNat = v.toNat % 256 := by
  show (BitVec.ofNat 8 v.toNat).toNat = _
  simp

theorem uint32_shiftRight_toNat (v k : UInt32) (hk : k.toNat < 32) :
    (v >>> k).toNat = v.toNat / 2 ^ k.toNat := by
  show (v.toBitVec >>> (UInt32.mod k 32).toBitVec).toNat = _
  have : (UInt32.mod k 32).toBitVec.toNat = k.toNat := by
    show (k.toBitVec % (32 : UInt32).toBitVec).toNat = _
    rw [BitVec.toNat_umod]
    show k.toNat % 32 = k.toNat
    exact Nat.mod_eq_of_lt hk
  rw [BitVec.ushiftRight_eq' , BitVec.toNat_ushiftRight, this, Nat.shiftRight_eq_div_pow]
  rfl

theorem and_31 (x : Nat) : x &&& 31 = x % 32 := Nat.and_pow_two_sub_one_eq_mod x 5
theorem and_63 (x : Nat) : x &&& 63 = x % 64 := Nat.and_pow_two_sub_one_eq_mod x 6
theorem and_15 (x : Nat) : x &&& 15 = x % 16 := Nat.and_pow_two_sub_one_eq_mod x 4
theorem and_7 (x : Nat) : x &&& 7 = x % 8 := Nat.and_pow_two_sub_one_eq_mod x 3

theorem lead_byte (v : UInt32) (k : UInt32) (mask tag : UInt8) (hk : k.toNat < 32) :
    ((v >>> k).toUInt8 &&& mask ||| tag).toNat =
      (v.toNat / 2 ^ k.toNat % 256 &&& mask.toNat) ||| tag.toNat := by
  rw [uint8_toNat_or, UInt8.and_toNat, uint32_toUInt8_toNat, uint32_shiftRight_toNat v k hk]

theorem low_byte (v : UInt32) (mask tag : UInt8) :
    (v.toUInt8 &&& mask ||| tag).toNat = (v.toNat % 256 &&& mask.toNat) ||| tag.toNat := by
  rw [uint8_toNat_or, UInt8.and_toNat, uint32_toUInt8_toNat]

theorem utf8Bytes_eq (c : Char) :
    utf8Bytes c = (String.utf8EncodeChar c).map UInt8.toNat := by
  have hn : c.toNat = c.val.toNat := rfl
  have hlt : c.val.toNat < 0x110000 := by
    rcases c.valid with h | h
    · have : c.val.toNat < 0xd800 := h
      omega
    · exact h.2
  have h1 : (c.val ≤ 0x7f) ↔ c.val.toNat ≤ 127 := Iff.rfl
  have h2 : (c.val ≤ 0x7ff) ↔ c.val.toNat ≤ 2047 := Iff.rfl
  have h3 : (c.val ≤ 0xffff) ↔ c.val.toNat ≤ 65535 := Iff.rfl
  unfold utf8Bytes String.utf8EncodeChar
  simp only [hn, h1, h2, h3]
  generalize c.val = v at hlt
  by_cases c1 : v.toNat ≤ 127
  · rw [if_pos c1, if_pos (by omega)]
    simp only [List.map_cons, List.map_nil, uint32_toUInt8_toNat]
    congr 1
    omega
  · rw [if_neg c1, if_neg (by omega)]
    by_cases c2 : v.toNat ≤ 2047
    · rw [if_pos c2, if_pos (by omega)]
      simp only [List.map_cons, List.map_nil]
      rw [lead_byte v 6 _ _ (by decide), low_byte]
      show _ = [(v.toNat / 64 % 256 &&& 31) ||| 192, (v.toNat % 256 &&& 63) ||| 128]
      rw [and_31, and_63, or_192 _ (Nat.mod_lt _ (by decide)), or_128 _ (Nat.mod_lt _ (by decide))]
      simp only [List.cons.injEq, and_true]
      omega
    · rw [if_neg c2, if_neg (by omega)]
      by_cases c3 : v.toNat ≤ 65535
      · rw [if_pos c3, if_pos (by omega)]
        simp only [List.map_cons, List.map_nil]
        rw [lead_byte v 12 _ _ (by decide), lead_byte v 6 _ _ (by decide), low_byte]
        show _ = [(v.toNat / 4096 % 256 &&& 15) ||| 224, (v.toNat / 64 % 256 &&& 63) ||| 128,
          (v.toNat % 256 &&& 63) ||| 128]
        rw [and_15, and_63, and_63, or_224 _ (Nat.mod_lt _ (by decide)),
          or_128 _ (Nat.mod_lt _ (by decide)), or_128 _ (Nat.mod_lt _ (by decide))]
        simp only [List.cons.injEq, and_true]
        omega
      · rw [if_neg c3, if_neg (by omega)]
        simp only [List.map_cons, List.map_nil]
        rw [lead_byte v 18 _ _ (by decide), lead_byte v 12 _ _ (by decide),
          lead_byte v 6 _ _ (by decide), low_byte]
        show _ = [(v.toNat / 262144 % 256 &&& 7) ||| 240, (v.toNat / 4096 % 256 &&& 63) ||| 128,
          (v.toNat / 64 % 256 &&& 63) ||| 128, (v.toNat % 256 &&& 63) ||| 128]
        rw [and_7, and_63, and_63, and_63, or_240 _ (Nat.mod_lt _ (by decide)),
          or_128 _ (Nat.mod_lt _ (by decide)), or_128 _ (Nat.mod_lt _ (by decide)),
          or_128 _ (Nat.mod_lt _ (by decide))]
        simp only [List.cons.injEq, and_true]
        omega

theorem escapeByte_eq : ∀ b < 256, escapeByte b = escapedByte b := by
  decide!

theorem bytesOf_lt (s : String) : ∀ b ∈ bytesOf s, b < 256 := by
  intro b hb
  simp only [bytesOf, List.mem_flatMap, List.mem_map] at hb
  obtain ⟨c, -, u, -, rfl⟩ := hb
  exact u.toBitVec.isLt

theorem QueryEscape_eq (s : String) : QueryEscape s = escapedText s := by
  have hb : bytesOf s = s.toList.flatMap utf8Bytes := by
    unfold bytesOf
    congr 1
    funext c
    exact (utf8Bytes_eq c).symm
  unfold QueryEscape escapedText
  rw [← List.flatMap_assoc, ← hb]
  congr 1
  apply List.flatMap_congr
  intro b hb
  exact escapeByte_eq b (bytesOf_lt s b hb)

theorem joinPairs_eq (ps : List (String × String)) : joinPairs ps = joinEscapedPairs ps := by
  simp only [joinPairs, joinEscapedPairs, QueryEscape_eq]

end url

namespace gophish

theorem do_sent_eq {F α : Type} (c : Client) (env : Env F) (method apiPath : String)
    (req : query.Input) (dec : json.Dec α) (resp : α) :
    (c.do env method apiPath req dec resp).sent =
      match query.Values req with
      | .error _ => []
      | .ok vals =>
        match http.NewRequest env.parseURL method (c.baseUrl ++ apiPath ++ "?" ++
            url.Values.Encode (url.Values.Add vals "apikey" c.apiKey)) with
        | .error _ => []
        | .ok hreq => (c.Do env hreq).sent := by
  unfold Client.do
  cases query.Values req with
  | error e => rfl
  | ok vals =>
    dsimp only
    cases http.NewRequest env.parseURL method (c.baseUrl ++ apiPath ++ "?" ++
        url.Values.Encode (url.Values.Add vals "apikey" c.apiKey)) with
    | error e => rfl
    | ok hreq =>
      dsimp only
      cases (c.Do env hreq).result with
      | none => rfl
      | some r =>
        cases r with
        | error e => rfl
        | ok res =>
          dsimp only
          cases res.Body with
          | error e => rfl
          | ok body =>
            dsimp only
            split
            · split <;> rfl
            · rfl

theorem do_sent {F α : Type} (c : Client) (env : Env F) (method apiPath : String)
    (fields : List query.Field) (dec : json.Dec α) (resp : α) :
    (∀ q ∈ (c.do env method apiPath (.structPtr (some fields)) dec resp).sent,
      q.URL = c.baseUrl ++ apiPath ++ "?" ++ url.Values.Encode
        (url.Values.Add (query.reflectValue [] fields) "apikey" c.apiKey)) ∧
    (c.throttle ≠ none → http.validMethod method = true →
      env.parseURL (c.baseUrl ++ apiPath ++ "?" ++ url.Values.Encode
        (url.Values.Add (query.reflectValue [] fields) "apikey" c.apiKey)) = true →
      (c.do env method apiPath (.structPtr (some fields)) dec resp).sent =
        [⟨method, c.baseUrl ++ apiPath ++ "?" ++ url.Values.Encode
          (url.Values.Add (query.reflectValue [] fields) "apikey" c.apiKey)⟩]) := by
  rw [do_sent_eq]
  simp only [query.Values]
  constructor
  · intro q hq
    split at hq
    · simp at hq
    · rename_i hreq hnew
      have hu := http.NewRequest_url _ _ _ _ hnew
      unfold Client.Do at hq
      split at hq
      · simp at hq
      · simp only [List.mem_singleton] at hq
        rw [hq, hu]
  · intro hthr hm hu
    rw [http.NewRequest_ok _ _ _ hm hu]
    simp only
    unfold Client.Do
    split
    · rename_i h
      exact absurd h hthr
    · rfl

/-- C4, as the code has it: the URL that `do` requests is the base URL, the endpoint
path, `?`, and the query string made of exactly the parameter `apikey` and the
parameters of the non-default fields of the request object, written as `key=value` with
key and value query-escaped (of their UTF-8 bytes the letters, digits, `-`, `_`, `.`, `~`
kept, a space written `+`, every other byte written `%XX`), joined by `&` in ascending
key order. -/
theorem do_requests_escaped_url {F α : Type} (c : Client) (env : Env F)
    (method apiPath : String) (fields : List query.Field) (dec : json.Dec α) (resp : α)
    (hthr : c.throttle ≠ none) (hm : http.validMethod method = true) :
    ∃ ps : List (String × String),
      url.KeysAscending ps ∧
      ps.Perm (("apikey", c.apiKey) :: query.declaredParams fields) ∧
      (∀ q ∈ (c.do env method apiPath (.structPtr (some fields)) dec resp).sent,
        q.URL = c.baseUrl ++ apiPath ++ "?" ++ url.joinEscapedPairs ps) ∧
      (env.parseURL (c.baseUrl ++ apiPath ++ "?" ++ url.joinEscapedPairs ps) = true →
        (c.do env method apiPath (.structPtr (some fields)) dec resp).sent =
          [⟨method, c.baseUrl ++ apiPath ++ "?" ++ url.joinEscapedPairs ps⟩]) := by
  refine ⟨url.Values.written (url.Values.Add (query.reflectValue [] fields) "apikey" c.apiKey),
    url.Values.written_ascending _, ?_, ?_, ?_⟩
  · exact (written_perm_declared c.apiKey fields).trans
      (List.perm_append_comm.trans (by simp))
  · rw [← url.joinPairs_eq, ← url.Values.Encode_eq]
    exact (do_sent c env method apiPath fields dec resp).1
  · rw [← url.joinPairs_eq, ← url.Values.Encode_eq]
    exact (do_sent c env method apiPath fields dec resp).2 hthr hm

end gophish

namespace gophish

/-- C4 as stated fails: for the request object with `City = "New York"` the requested URL
writes the value as `New+York`, so it is not the list of `key=value` pairs written as
they are. -/
theorem do_url_not_raw_pairs :
    (testClient.do (mockEnv 200 "") http.MethodPost "/shows/query"
        (.structPtr (some (ShowsQueryRequest.fields { City := "New York" })))
        decodeShowsQueryResponse ShowsQueryResponse.zero).sent =
      [⟨"POST", "http://127.0.0.1:8080/shows/query?apikey=abc&city=New+York"⟩] ∧
    ¬ ∃ ps : List (String × String),
      url.KeysAscending ps ∧
      ps.Perm (("apikey", "abc") ::
        query.declaredParams (ShowsQueryRequest.fields { City := "New York" })) ∧
      ∀ q ∈ (testClient.do (mockEnv 200 "") http.MethodPost "/shows/query"
          (.structPtr (some (ShowsQueryRequest.fields { City := "New York" })))
          decodeShowsQueryResponse ShowsQueryResponse.zero).sent,
        q.URL = "http://127.0.0.1:8080" ++ "/shows/query" ++ "?" ++ url.joinRawPairs ps := by
  have hsent : (testClient.do (mockEnv 200 "") http.MethodPost "/shows/query"
        (.structPtr (some (ShowsQueryRequest.fields { City := "New York" })))
        decodeShowsQueryResponse ShowsQueryResponse.zero).sent =
      [⟨"POST", "http://127.0.0.1:8080/shows/query?apikey=abc&city=New+York"⟩] := by
    decide!
  refine ⟨hsent, ?_⟩
  rintro ⟨ps, hasc, hperm, hurl⟩
  have hdecl : query.declaredParams (ShowsQueryRequest.fields { City := "New York" }) =
      [("city", "New York")] := by decide
  rw [hdecl] at hperm
  rw [hsent] at hurl
  have hq := hurl _ (List.mem_singleton.mpr rfl)
  have hlen := hperm.length_eq
  match ps, hasc, hperm, hq, hlen with
  | [x, y], hasc, hperm, hq, _ =>
    have hx : x ∈ [(("apikey", "abc") : String × String), ("city", "New York")] :=
      hperm.mem_iff.mp (by simp)
    have hy : y ∈ [(("apikey", "abc") : String × String), ("city", "New York")] :=
      hperm.mem_iff.mp (by simp)
    have hnd : [x, y].Nodup := hperm.nodup_iff.mpr (by decide)
    simp only [List.mem_cons, List.mem_singleton, List.not_mem_nil, or_false] at hx hy
    rcases hx with rfl | rfl <;> rcases hy with rfl | rfl
    · simp at hnd
    · exact absurd hq (by decide)
    · simp only [url.KeysAscending, List.pairwise_cons, List.mem_singleton, forall_eq] at hasc
      exact absurd hasc.1 (by decide!)
    · simp at hnd

end gophish

namespace time

theorem cycles_abc (q a b c yd : Nat) (ha : a ≤ 3) (hb : b ≤ 24) (hc : c ≤ 3)
    (hyd : yd ≤ 364 ∨ (yd = 365 ∧ c = 3 ∧ (b ≠ 24 ∨ a = 3))) :
    ∀ d0, d0 = 146097 * q + 36524 * a + 1461 * b + 365 * c + yd →
      ∀ n1 d1 n2 d2 n3 d3 n4 d4,
        n1 = d0 / 146097 → d1 = d0 - 146097 * n1 →
        n2 = d1 / 36524 - d1 / 36524 / 4 → d2 = d1 - 36524 * n2 →
        n3 = d2 / 1461 → d3 = d2 - 1461 * n3 →
        n4 = d3 / 365 - d3 / 365 / 4 → d4 = d3 - 365 * n4 →
        n1 = q ∧ n2 = a ∧ n3 = b ∧ n4 = c ∧ d4 = yd := by
  intro d0 h0 n1 d1 n2 d2 n3 d3 n4 d4 h1 h1' h2 h2' h3 h3' h4 h4'
  have e1 : n1 = q := by omega
  have e1' : d1 = 36524 * a + 1461 * b + 365 * c + yd := by omega
  clear h0 h1 h1'
  have e2 : n2 = a := by omega
  have e2' : d2 = 1461 * b + 365 * c + yd := by omega
  clear e1' h2 h2'
  have e3 : n3 = b := by omega
  have e3' : d3 = 365 * c + yd := by omega
  clear e2' h3 h3'
  have e4 : n4 = c := by omega
  have e4' : d4 = yd := by omega
  exact ⟨e1, e2, e3, e4, e4'⟩

theorem split_year (y : Nat) :
    ∃ q a b c, y = 400 * q + 100 * a + 4 * b + c ∧ a ≤ 3 ∧ b ≤ 24 ∧ c ≤ 3 ∧
      q = y / 400 ∧ a = (y - 400 * q) / 100 ∧ b = (y - 400 * q - 100 * a) / 4 ∧
      c = y - 400 * q - 100 * a - 4 * b := by
  refine ⟨y / 400, (y - 400 * (y / 400)) / 100,
    (y - 400 * (y / 400) - 100 * ((y - 400 * (y / 400)) / 100)) / 4,
    y - 400 * (y / 400) - 100 * ((y - 400 * (y / 400)) / 100)
      - 4 * ((y - 400 * (y / 400) - 100 * ((y - 400 * (y / 400)) / 100)) / 4), ?_, ?_, ?_, ?_,
    rfl, rfl, rfl, rfl⟩ <;> omega

theorem toUint64_year (Y : Nat) (h : Y ≤ 9999) :
    toUint64 ((Y : Int) - absoluteZeroYear) = Y + 292277022399 := by
  unfold toUint64 absoluteZeroYear
  omega

theorem isLeap_iff (Y : Nat) (q a b c : Nat)
    (hy : Y + 292277022399 = 400 * q + 100 * a + 4 * b + c) (ha : a ≤ 3) (hb : b ≤ 24)
    (hc : c ≤ 3) : isLeap (Y : Int) = true ↔ (c = 3 ∧ (b ≠ 24 ∨ a = 3)) := by
  unfold isLeap
  simp only [Bool.and_eq_true, Bool.or_eq_true, beq_iff_eq, bne_iff_ne, ne_eq]
  omega

theorem daysSinceEpoch_eq (Y : Nat) (h : Y ≤ 9999) (q a b c : Nat)
    (hy : Y + 292277022399 = 400 * q + 100 * a + 4 * b + c) (ha : a ≤ 3) (hb : b ≤ 24)
    (hc : c ≤ 3) :
    daysSinceEpoch (Y : Int) = 146097 * q + 36524 * a + 1461 * b + 365 * c := by
  unfold daysSinceEpoch
  simp only [toUint64_year Y h, daysPer400Years, daysPer100Years, daysPer4Years]
  have e1 : (Y + 292277022399) / 400 = q := by omega
  rw [e1]
  have e2 : (Y + 292277022399 - 400 * q) / 100 = a := by omega
  rw [e2]
  have e3 : (Y + 292277022399 - 400 * q - 100 * a) / 4 = b := by omega
  rw [e3]
  omega

end time

namespace time

theorem toInt64_year (Y : Nat) (h : Y ≤ 9999) :
    toInt64 (Y + 292277022399) + absoluteZeroYear = (Y : Int) := by
  unfold toInt64 absoluteZeroYear
  split <;> omega

theorem absYearDay_eq (Y : Nat) (h : Y ≤ 9999) (yd : Nat)
    (hyd : yd ≤ 364 ∨ (yd = 365 ∧ isLeap (Y : Int) = true)) :
    absYearDay ((daysSinceEpoch (Y : Int) + yd) * secondsPerDay) = ((Y : Int), yd) := by
  obtain ⟨q, a, b, c, hy, ha, hb, hc, -, -, -, -⟩ := split_year (Y + 292277022399)
  rw [daysSinceEpoch_eq Y h q a b c hy ha hb hc]
  have hyd' : yd ≤ 364 ∨ (yd = 365 ∧ c = 3 ∧ (b ≠ 24 ∨ a = 3)) := by
    rcases hyd with h1 | ⟨h1, h2⟩
    · exact Or.inl h1
    · exact Or.inr ⟨h1, (isLeap_iff Y q a b c hy ha hb hc).mp h2⟩
  obtain ⟨e1, e2, e3, e4, e5⟩ := cycles_abc q a b c yd ha hb hc hyd' _ rfl
    _ _ _ _ _ _ _ _ rfl rfl rfl rfl rfl rfl rfl rfl
  unfold absYearDay
  have hsec : (146097 * q + 36524 * a + 1461 * b + 365 * c + yd) * secondsPerDay / secondsPerDay
      = 146097 * q + 36524 * a + 1461 * b + 365 * c + yd :=
    Nat.mul_div_cancel _ (by decide)
  simp only [hsec, daysPer400Years, daysPer100Years, daysPer4Years, Nat.reduceMul, Nat.reduceAdd]
  rw [e1] at e2 e3 e4 e5 ⊢
  rw [e2] at e3 e4 e5 ⊢
  rw [e3] at e4 e5 ⊢
  rw [e4] at e5 ⊢
  rw [e5]
  have : 400 * q + 100 * a + 4 * b + c = Y + 292277022399 := hy.symm
  rw [this, toInt64_year Y h]

end time

namespace time

theorem norm_id (hi lo base : Int) (h0 : 0 ≤ lo) (h1 : lo < base) :
    norm hi lo base = (hi, lo) := by
  unfold norm
  simp only [not_lt.mpr h0, if_false, ge_iff_le, not_le.mpr h1]

theorem monthDay_eq (leap : Bool) (m d : Nat) (hm1 : 1 ≤ m) (hm : m ≤ 12) (hd1 : 1 ≤ d)
    (hd : d ≤ (if m == 2 && leap then 29
      else daysBefore.getD m 0 - daysBefore.getD (m - 1) 0)) :
    monthDay leap (daysBefore.getD (m - 1) 0 + (if leap && decide (3 ≤ m) then 1 else 0)
      + (d - 1)) = (m, d) := by
  cases leap <;> interval_cases m <;> simp [daysBefore] at hd <;> interval_cases d <;> decide

theorem yday_bound (leap : Bool) (m d : Nat) (hm1 : 1 ≤ m) (hm : m ≤ 12) (hd1 : 1 ≤ d)
    (hd : d ≤ (if m == 2 && leap then 29
      else daysBefore.getD m 0 - daysBefore.getD (m - 1) 0)) :
    (daysBefore.getD (m - 1) 0 + (if leap && decide (3 ≤ m) then 1 else 0) + (d - 1) ≤ 364 ∨
      (daysBefore.getD (m - 1) 0 + (if leap && decide (3 ≤ m) then 1 else 0) + (d - 1) = 365
        ∧ leap = true)) := by
  cases leap <;> interval_cases m <;> simp [daysBefore] at hd <;> simp [daysBefore] <;> omega

end time

namespace time

theorem toUint64_mod (x : Int) : ((toUint64 x : Nat) : Int) = x % 18446744073709551616 := by
  unfold toUint64
  omega

theorem toInt64_mod (n : Nat) : toInt64 n % 18446744073709551616 = (n : Int) % 18446744073709551616 := by
  unfold toInt64
  split <;> omega

theorem wrapInt64_mod (x : Int) : wrapInt64 x % 18446744073709551616 = x % 18446744073709551616 := by
  unfold wrapInt64
  rw [toInt64_mod, toUint64_mod]
  omega

theorem wrapInt64_eq (x y : Int) (h : x % 18446744073709551616 = y % 18446744073709551616)
    (hlo : -9223372036854775808 ≤ y) (hhi : y < 9223372036854775808) : wrapInt64 x = y := by
  unfold wrapInt64 toInt64 toUint64
  split <;> omega

theorem unixToInternal_val : unixToInternal = 62135596800 := by decide

theorem abs_roundtrip (A : Nat) (hA : A < 18446744073709551616) :
    toUint64 (wrapInt64 (wrapInt64 (toInt64 A + (absoluteToInternal + internalToUnix))
      + unixToInternal) + internalToAbsolute) = A := by
  have h1 := wrapInt64_mod (toInt64 A + (absoluteToInternal + internalToUnix))
  have h2 := wrapInt64_mod
    (wrapInt64 (toInt64 A + (absoluteToInternal + internalToUnix)) + unixToInternal)
  have h3 := toInt64_mod A
  generalize wrapInt64
    (wrapInt64 (toInt64 A + (absoluteToInternal + internalToUnix)) + unixToInternal) = w2 at *
  generalize wrapInt64 (toInt64 A + (absoluteToInternal + internalToUnix)) = w1 at *
  generalize toInt64 A = a at *
  unfold toUint64
  simp only [internalToAbsolute, internalToUnix, absoluteToInternal, unixToInternal_val] at *
  omega

theorem daysBefore_le (m : Nat) (hm1 : 1 ≤ m) (hm : m ≤ 12) :
    daysBefore.getD (m - 1) 0 ≤ 334 := by
  interval_cases m <;> decide

theorem Date_abs (Y m d : Nat) (hY : Y ≤ 9999) (hm1 : 1 ≤ m) (hm : m ≤ 12) (hd1 : 1 ≤ d)
    (hd : d ≤ 31) :
    (Date (Y : Int) (m : Int) (d : Int) 0 0 0 0 Location.UTC).abs =
      (daysSinceEpoch (Y : Int) + (daysBefore.getD (m - 1) 0
        + (if isLeap (Y : Int) && decide (3 ≤ m) then 1 else 0) + (d - 1))) * secondsPerDay := by
  obtain ⟨q, a, b, c, hy, ha, hb, hc, -, -, -, -⟩ := split_year (Y + 292277022399)
  have hD := daysSinceEpoch_eq Y hY q a b c hy ha hb hc
  unfold Date Time.abs
  rw [norm_id (Y : Int) ((m : Int) - 1) 12 (by omega) (by omega)]
  simp only [norm_id (0 : Int) 0 1000000000 (by omega) (by omega),
    norm_id (0 : Int) 0 60 (by omega) (by omega),
    norm_id (d : Int) 0 24 (by omega) (by omega)]
  have e1 : ((m : Int) - 1 + 1 - 1).toNat = m - 1 := by omega
  have e2 : toUint64 ((d : Int) - 1) = d - 1 := by
    unfold toUint64
    omega
  have e3 : decide ((m : Int) - 1 + 1 ≥ 3) = decide (3 ≤ m) := by
    apply decide_eq_decide.mpr
    omega
  have e4 : toUint64 (0 * (secondsPerHour : Int) + 0 * (secondsPerMinute : Int) + 0) = 0 := by
    unfold toUint64
    simp
  simp only [e1, e2, e3, e4]
  have hdb := daysBefore_le m hm1 hm
  generalize daysBefore.getD (m - 1) 0 = db at *
  generalize (isLeap (Y : Int) && decide (3 ≤ m)) = lp
  rw [hD]
  have hsec : secondsPerDay = 86400 := by decide
  rw [hsec]
  cases lp
  · simp only [Bool.false_eq_true, if_false, Nat.add_zero]
    have hA : (146097 * q + 36524 * a + 1461 * b + 365 * c + db + (d - 1)) * 86400
        < 18446744073709551616 := by omega
    have hw : wrapUint64 ((146097 * q + 36524 * a + 1461 * b + 365 * c + db + (d - 1)) * 86400)
        = (146097 * q + 36524 * a + 1461 * b + 365 * c + db + (d - 1)) * 86400 :=
      Nat.mod_eq_of_lt hA
    rw [hw, hw, abs_roundtrip _ hA]
    omega
  · simp only [if_true, Nat.add_zero]
    have hA : (146097 * q + 36524 * a + 1461 * b + 365 * c + db + 1 + (d - 1)) * 86400
        < 18446744073709551616 := by omega
    have hw : wrapUint64
        ((146097 * q + 36524 * a + 1461 * b + 365 * c + db + 1 + (d - 1)) * 86400)
        = (146097 * q + 36524 * a + 1461 * b + 365 * c + db + 1 + (d - 1)) * 86400 :=
      Nat.mod_eq_of_lt hA
    rw [hw, hw, abs_roundtrip _ hA]
    omega

end time

namespace time

theorem toUint64_small (n : Nat) (h : n ≤ 9999) : toUint64 (n : Int) = n := by
  unfold toUint64
  omega

theorem appendInt_4 (Y : Nat) (h : Y ≤ 9999) :
    appendInt (Y : Int) 4 =
      [gophish.digitAt Y 1000, gophish.digitAt Y 100, gophish.digitAt Y 10, gophish.digitAt Y 1] := by
  have hneg : ¬ ((Y : Int) < 0) := by omega
  unfold appendInt
  simp only [hneg, if_false, toUint64_small Y h, List.nil_append, gophish.digitAt]
  by_cases h1 : Y < 10
  · have e1 : Y / 1000 % 10 = 0 := by omega
    have e2 : Y / 100 % 10 = 0 := by omega
    have e3 : Y / 10 % 10 = 0 := by omega
    have e4 : Y % 10 = Y := by omega
    simp [strconv.formatDigits, h1, e1, e2, e3, e4]
  · by_cases h2 : Y / 10 < 10
    · have e1 : Y / 1000 % 10 = 0 := by omega
      have e2 : Y / 100 % 10 = 0 := by omega
      have e3 : Y / 10 % 10 = Y / 10 := by omega
      have e4 : Y / 1 % 10 = Y % 10 := by omega
      simp [strconv.formatDigits, h1, h2, e1, e2, e3, e4]
    · by_cases h3 : Y / 10 / 10 < 10
      · have e1 : Y / 1000 % 10 = 0 := by omega
        have e2 : Y / 100 % 10 = Y / 10 / 10 := by omega
        have e3 : Y / 10 % 10 = Y / 10 % 10 := by omega
        have e4 : Y / 1 % 10 = Y % 10 := by omega
        simp [strconv.formatDigits, h1, h2, h3, e1, e2, e4]
      · have h4 : Y / 10 / 10 / 10 < 10 := by omega
        have e1 : Y / 1000 % 10 = Y / 10 / 10 / 10 := by omega
        have e2 : Y / 100 % 10 = Y / 10 / 10 % 10 := by omega
        have e4 : Y / 1 % 10 = Y % 10 := by omega
        simp [strconv.formatDigits, h1, h2, h3, h4, e1, e2, e4]


theorem appendInt_2 (n : Nat) (h : n ≤ 99) :
    appendInt (n : Int) 2 = [gophish.digitAt n 10, gophish.digitAt n 1] := by
  have hneg : ¬ ((n : Int) < 0) := by omega
  unfold appendInt
  simp only [hneg, if_false, toUint64_small n (by omega), List.nil_append, gophish.digitAt]
  by_cases h1 : n < 10
  · have e3 : n / 10 % 10 = 0 := by omega
    have e4 : n % 10 = n := by omega
    simp [strconv.formatDigits, h1, e3, e4]
  · have h2 : n / 10 < 10 := by omega
    have e3 : n / 10 % 10 = n / 10 := by omega
    simp [strconv.formatDigits, h1, h2, e3]

end time

namespace gophish

theorem isLeap_iff_IsLeapYear (Y : Nat) : time.isLeap (Y : Int) = true ↔ IsLeapYear Y := by
  unfold time.isLeap IsLeapYear
  simp only [Bool.and_eq_true, Bool.or_eq_true, beq_iff_eq, bne_iff_ne, ne_eq]
  omega

theorem daysIn_eq (Y m : Nat) (hm1 : 1 ≤ m) (hm : m ≤ 12) :
    time.daysIn m (Y : Int) = daysInMonth Y m := by
  unfold time.daysIn daysInMonth
  by_cases hl : IsLeapYear Y
  · have := (isLeap_iff_IsLeapYear Y).mpr hl
    interval_cases m <;> simp [this, hl, time.daysBefore]
  · have : time.isLeap (Y : Int) = false := by
      cases h : time.isLeap (Y : Int)
      · rfl
      · exact absurd ((isLeap_iff_IsLeapYear Y).mp h) hl
    interval_cases m <;> simp [this, hl, time.daysBefore]

theorem daysInMonth_le (Y m : Nat) : daysInMonth Y m ≤ 31 := by
  unfold daysInMonth
  split
  · split <;> omega
  · split <;> omega

theorem digitAt_spec (n pow : Nat) :
    time.isDigit (digitAt n pow) = true ∧ time.digitVal (digitAt n pow) = n / pow % 10 := by
  have h := strconv.digit_isDigit (n / pow % 10) (Nat.mod_lt _ (by decide))
  exact ⟨h.1, h.2⟩

theorem parseDate_dateText (Y m d : Nat) (h : IsCalendarDay Y m d) :
    time.parseDate (dateText Y m d) =
      .ok (time.Date (Y : Int) (m : Int) (d : Int) 0 0 0 0 time.Location.UTC) := by
  obtain ⟨hY, hm1, hm, hd1, hd⟩ := h
  have hd31 := daysInMonth_le Y m
  have hy : strconv.parseDigits
      [digitAt Y 1000, digitAt Y 100, digitAt Y 10, digitAt Y 1] 0 = some Y := by
    have a1 := strconv.digit_isDigit (Y / 1000 % 10) (Nat.mod_lt _ (by decide))
    have a2 := strconv.digit_isDigit (Y / 100 % 10) (Nat.mod_lt _ (by decide))
    have a3 := strconv.digit_isDigit (Y / 10 % 10) (Nat.mod_lt _ (by decide))
    have a4 := strconv.digit_isDigit (Y / 1 % 10) (Nat.mod_lt _ (by decide))
    simp only [strconv.parseDigits, digitAt, a1.1, a1.2, a2.1, a2.2, a3.1, a3.2, a4.1, a4.2,
      if_true, Option.some.injEq]
    omega
  have hmv : time.digitVal (digitAt m 10) * 10 + time.digitVal (digitAt m 1) = m := by
    rw [(digitAt_spec m 10).2, (digitAt_spec m 1).2]
    omega
  have hdv : time.digitVal (digitAt d 10) * 10 + time.digitVal (digitAt d 1) = d := by
    rw [(digitAt_spec d 10).2, (digitAt_spec d 1).2]
    omega
  have hdays : ¬ (d > time.daysIn m (Y : Int)) := by
    rw [daysIn_eq Y m hm1 hm]
    omega
  have hmr : ¬ (12 < m) := by omega
  have hm0 : ¬ (m ≤ 0) := by omega
  have hd0 : ¬ (d < 1) := by omega
  simp [time.parseDate, dateText, time.getLongYear, (digitAt_spec Y 1000).1, hy,
    time.skipDash, time.getnum2, (digitAt_spec m 10).1, (digitAt_spec m 1).1, hmv,
    (digitAt_spec d 10).1, (digitAt_spec d 1).1, hdv, hdays, hmr, hm0, hd0]

end gophish

namespace gophish

theorem absDate_Date (Y m d : Nat) (h : IsCalendarDay Y m d) :
    time.absDate (time.Date (Y : Int) (m : Int) (d : Int) 0 0 0 0 time.Location.UTC).abs =
      ((Y : Int), m, d) := by
  obtain ⟨hY, hm1, hm, hd1, hd⟩ := h
  have hd31 := daysInMonth_le Y m
  have hdin : d ≤ (if m == 2 && time.isLeap (Y : Int) then 29
      else time.daysBefore.getD m 0 - time.daysBefore.getD (m - 1) 0) := by
    have := daysIn_eq Y m hm1 hm
    unfold time.daysIn at this
    rw [this]
    exact hd
  rw [time.Date_abs Y m d hY hm1 hm hd1 (by omega)]
  unfold time.absDate
  rw [time.absYearDay_eq Y hY _ (time.yday_bound _ m d hm1 hm hd1 hdin)]
  simp only [time.monthDay_eq _ m d hm1 hm hd1 hdin]

theorem formatDate_Date (Y m d : Nat) (h : IsCalendarDay Y m d) :
    (time.Date (Y : Int) (m : Int) (d : Int) 0 0 0 0 time.Location.UTC).formatDate =
      dateText Y m d := by
  have hd31 := daysInMonth_le Y m
  unfold time.Time.formatDate
  rw [absDate_Date Y m d h]
  obtain ⟨hY, hm1, hm, hd1, hd⟩ := h
  simp only [time.appendInt_4 Y hY, time.appendInt_2 m (by omega), time.appendInt_2 d (by omega)]
  rfl

end gophish

namespace time

theorem isDigit_spec (c : Char) (h : isDigit c = true) :
    digitVal c < 10 ∧ c = Char.ofNat (48 + digitVal c) := by
  unfold isDigit at h
  simp only [Bool.and_eq_true, decide_eq_true_eq] at h
  obtain ⟨h1, h2⟩ := h
  have h1' : 48 ≤ c.toNat := by
    have := Char.le_def.mp h1
    simpa using this
  have h2' : c.toNat ≤ 57 := by
    have := Char.le_def.mp h2
    simpa using this
  unfold digitVal
  refine ⟨by omega, ?_⟩
  have : 48 + (c.toNat - 48) = c.toNat := by omega
  rw [this, Char.ofNat_toNat]


theorem parseDigits_cons_some (c : Char) (cs : List Char) (acc n : Nat)
    (h : strconv.parseDigits (c :: cs) acc = some n) :
    isDigit c = true ∧ strconv.parseDigits cs (acc * 10 + digitVal c) = some n := by
  unfold strconv.parseDigits at h
  split at h
  · rename_i hc
    exact ⟨hc, h⟩
  · simp at h

theorem getLongYear_some (v rest : List Char) (y : Nat) (h : getLongYear v = some (y, rest)) :
    ∃ a b c d, v = a :: b :: c :: d :: rest ∧ isDigit a = true ∧ isDigit b = true ∧
      isDigit c = true ∧ isDigit d = true ∧
      y = ((digitVal a * 10 + digitVal b) * 10 + digitVal c) * 10 + digitVal d := by
  unfold getLongYear at h
  split at h
  · rename_i a b c d r
    split at h
    · rw [Option.map_eq_some'] at h
      obtain ⟨n, hn, he⟩ := h
      simp only [Prod.mk.injEq] at he
      obtain ⟨rfl, rfl⟩ := he
      obtain ⟨ha, h1⟩ := parseDigits_cons_some _ _ _ _ hn
      obtain ⟨hb, h2⟩ := parseDigits_cons_some _ _ _ _ h1
      obtain ⟨hc, h3⟩ := parseDigits_cons_some _ _ _ _ h2
      obtain ⟨hd, h4⟩ := parseDigits_cons_some _ _ _ _ h3
      simp only [strconv.parseDigits, Option.some.injEq] at h4
      exact ⟨a, b, c, d, rfl, ha, hb, hc, hd, by omega⟩
    · simp at h
  · simp at h

theorem getnum2_some (v rest : List Char) (n : Nat) (h : getnum2 v = some (n, rest)) :
    ∃ a b, v = a :: b :: rest ∧ isDigit a = true ∧ isDigit b = true ∧
      n = digitVal a * 10 + digitVal b := by
  unfold getnum2 at h
  split at h
  · rename_i a b r
    split at h
    · rename_i hab
      simp only [Bool.and_eq_true] at hab
      simp only [Option.some.injEq, Prod.mk.injEq] at h
      obtain ⟨rfl, rfl⟩ := h
      exact ⟨a, b, rfl, hab.1, hab.2, rfl⟩
    · simp at h
  · simp at h

theorem skipDash_some (v rest : List Char) (h : skipDash v = some rest) : v = '-' :: rest := by
  unfold skipDash at h
  split at h
  · rename_i c r
    split at h
    · rename_i hc
      simp only [beq_iff_eq] at hc
      simp only [Option.some.injEq] at h
      rw [hc, h]
    · simp at h
  · simp at h

end time

namespace gophish

theorem digitAt_of_isDigit (c : Char) (n pow : Nat) (h : time.isDigit c = true)
    (hv : n / pow % 10 = time.digitVal c) : digitAt n pow = c := by
  unfold digitAt
  rw [hv]
  exact (time.isDigit_spec c h).2.symm

theorem wellFormed_of_parseDate (s : String) (t : time.Time) (h : time.parseDate s = .ok t) :
    ∃ Y m d, IsCalendarDay Y m d ∧ s = dateText Y m d ∧
      t = time.Date (Y : Int) (m : Int) (d : Int) 0 0 0 0 time.Location.UTC := by
  unfold time.parseDate at h
  split at h
  · simp at h
  · rename_i Y v1 hY
    obtain ⟨a, b, c, d, hs, ha, hb, hc, hd, hYv⟩ := time.getLongYear_some _ _ _ hY
    split at h
    · simp at h
    · rename_i v2 hv2
      have hs1 := time.skipDash_some _ _ hv2
      split at h
      · simp at h
      · rename_i mo v3 hmo
        obtain ⟨e, f, hs2, he, hf, hmv⟩ := time.getnum2_some _ _ _ hmo
        split at h
        · simp at h
        · rename_i hmr
          split at h
          · simp at h
          · rename_i v4 hv4
            have hs3 := time.skipDash_some _ _ hv4
            split at h
            · simp at h
            · rename_i dy v5 hdy
              obtain ⟨g, i, hs4, hg, hi, hdv⟩ := time.getnum2_some _ _ _ hdy
              split at h
              · simp at h
              · rename_i hlen
                split at h
                · simp at h
                · rename_i hdr
                  simp only [Except.ok.injEq] at h
                  simp only [ne_eq, Decidable.not_not, List.length_eq_zero] at hlen
                  simp only [Bool.or_eq_true, decide_eq_true_eq, not_or, not_le, not_lt] at hmr hdr
                  have da := (time.isDigit_spec a ha).1
                  have db := (time.isDigit_spec b hb).1
                  have dc := (time.isDigit_spec c hc).1
                  have dd := (time.isDigit_spec d hd).1
                  have de := (time.isDigit_spec e he).1
                  have df := (time.isDigit_spec f hf).1
                  have dg := (time.isDigit_spec g hg).1
                  have di := (time.isDigit_spec i hi).1
                  have hcal : IsCalendarDay Y mo dy := by
                    refine ⟨by omega, by omega, by omega, by omega, ?_⟩
                    rw [← daysIn_eq Y mo (by omega) (by omega)]
                    exact hdr.2
                  refine ⟨Y, mo, dy, hcal, ?_, h.symm⟩
                  apply String.ext
                  show s.toList = _
                  rw [hs, hs1, hs2, hs3, hs4, hlen]
                  simp only [dateText]
                  rw [digitAt_of_isDigit a Y 1000 ha (by omega),
                    digitAt_of_isDigit b Y 100 hb (by omega),
                    digitAt_of_isDigit c Y 10 hc (by omega),
                    digitAt_of_isDigit d Y 1 hd (by omega),
                    digitAt_of_isDigit e mo 10 he (by omega),
                    digitAt_of_isDigit f mo 1 hf (by omega),
                    digitAt_of_isDigit g dy 10 hg (by omega),
                    digitAt_of_isDigit i dy 1 hi (by omega)]

end gophish

namespace gophish

theorem unixDay_eq (Y m d : Nat) (h : IsCalendarDay Y m d) :
    ((time.daysSinceEpoch (Y : Int) + (time.daysBefore.getD (m - 1) 0
        + (if time.isLeap (Y : Int) && decide (3 ≤ m) then 1 else 0) + (d - 1)) : Nat) : Int)
      = unixDay Y m d + 106751991073094 := by
  obtain ⟨hY, hm1, hm, hd1, hd⟩ := h
  obtain ⟨q, a, b, c, hy, ha, hb, hc, -, -, -, -⟩ := time.split_year (Y + 292277022399)
  rw [time.daysSinceEpoch_eq Y hY q a b c hy ha hb hc]
  unfold unixDay
  have htbl : [0, 31, 59, 90, 120, 151, 181, 212, 243, 273, 304, 334].getD (m - 1) 0 =
      time.daysBefore.getD (m - 1) 0 := by
    interval_cases m <;> rfl
  rw [htbl]
  have hdb := time.daysBefore_le m hm1 hm
  generalize time.daysBefore.getD (m - 1) 0 = db at *
  have hleap : (if time.isLeap (Y : Int) && decide (3 ≤ m) then 1 else 0 : Nat) =
      (if IsLeapYear Y ∧ 3 ≤ m then 1 else 0 : Nat) := by
    by_cases hl : IsLeapYear Y
    · simp [(isLeap_iff_IsLeapYear Y).mpr hl, hl]
    · have : time.isLeap (Y : Int) = false := by
        cases hh : time.isLeap (Y : Int)
        · rfl
        · exact absurd ((isLeap_iff_IsLeapYear Y).mp hh) hl
      simp [this, hl]
  rw [hleap]
  have hleap' : ((if IsLeapYear Y ∧ 3 ≤ m then 1 else 0 : Nat) : Int) =
      (if IsLeapYear Y ∧ 3 ≤ m then 1 else 0 : Int) := by
    split <;> rfl
  generalize hg : (if IsLeapYear Y ∧ 3 ≤ m then 1 else 0 : Nat) = lp at *
  rw [← hleap']
  have e4 : (Y + 3) / 4 + 73069255600 = 100 * q + 25 * a + b + 1 := by omega
  have e100 : (Y + 99) / 100 + 2922770224 = 4 * q + a + 1 := by omega
  have e400 : (Y + 399) / 400 + 730692556 = q + 1 := by omega
  push_cast
  omega

end gophish

namespace gophish

theorem Date_Unix (Y m d : Nat) (h : IsCalendarDay Y m d) :
    (time.Date (Y : Int) (m : Int) (d : Int) 0 0 0 0 time.Location.UTC).Unix =
      86400 * unixDay Y m d := by
  have hday := unixDay_eq Y m d h
  obtain ⟨hY, hm1, hm, hd1, hd⟩ := h
  have hd31 := daysInMonth_le Y m
  have habs := time.Date_abs Y m d hY hm1 hm hd1 (by omega)
  unfold time.Time.abs at habs
  have hmod := time.toUint64_mod
    ((time.Date (Y : Int) (m : Int) (d : Int) 0 0 0 0 time.Location.UTC).sec
      + time.internalToAbsolute)
  rw [habs] at hmod
  unfold time.Time.Unix
  generalize (time.Date (Y : Int) (m : Int) (d : Int) 0 0 0 0 time.Location.UTC).sec = sec at *
  have hu : unixDay Y m d ≤ 3000000 ∧ -800000 ≤ unixDay Y m d := by
    have hdb := time.daysBefore_le m hm1 hm
    have htbl : [0, 31, 59, 90, 120, 151, 181, 212, 243, 273, 304, 334].getD (m - 1) 0 =
        time.daysBefore.getD (m - 1) 0 := by
      interval_cases m <;> rfl
    unfold unixDay
    rw [htbl]
    generalize time.daysBefore.getD (m - 1) 0 = db at *
    split <;> omega
  generalize unixDay Y m d = u at *
  generalize (time.daysSinceEpoch (Y : Int) + (time.daysBefore.getD (m - 1) 0
        + (if time.isLeap (Y : Int) && decide (3 ≤ m) then 1 else 0) + (d - 1))) = n at *
  have hsec : time.secondsPerDay = 86400 := by decide
  rw [hsec] at hmod
  push_cast at hmod
  apply time.wrapInt64_eq
  · simp only [time.internalToAbsolute, time.internalToUnix, time.absoluteToInternal,
      time.unixToInternal_val] at *
    omega
  · omega
  · omega

end gophish

namespace gophish

/-- C5: for every well-formed `YYYY-MM-DD` string `s`, `ParseDate s` succeeds and
`FormatDate` of the parsed time is `s` again. -/
theorem formatDate_parseDate (s : String) (h : WellFormedDate s) :
    ∃ t, ParseDate s = .ok t ∧ FormatDate t = s := by
  obtain ⟨Y, m, d, hcal, rfl⟩ := h
  exact ⟨_, parseDate_dateText Y m d hcal, formatDate_Date Y m d hcal⟩

theorem formatDate_parseDate_witness :
    ∃ t, ParseDate "1980-10-03" = .ok t ∧ FormatDate t = "1980-10-03" :=
  formatDate_parseDate "1980-10-03" ⟨1980, 10, 3, by decide, by decide⟩

/-- C6: `ParseDate s` returns an error for every string `s` that is not a well-formed
`YYYY-MM-DD` date, and for the text of a calendar day it returns no error and the
instant at 00:00:00 UTC of that day: the value of `time.Date(year, month, day, 0, 0, 0,
0, time.UTC)`, whose Unix time is 86400 seconds for each day since 1 January 1970, whose
nanoseconds are zero, whose location is UTC, and whose calendar date is that day. -/
theorem parseDate_wellFormed (s : String) :
    (¬ WellFormedDate s → ∃ e, ParseDate s = .error e) ∧
    (∀ Y m d, IsCalendarDay Y m d → s = dateText Y m d →
      ∃ t, ParseDate s = .ok t ∧
        t = time.Date (Y : Int) (m : Int) (d : Int) 0 0 0 0 time.Location.UTC ∧
        t.Unix = 86400 * unixDay Y m d ∧ t.nsec = 0 ∧ t.loc = time.Location.UTC ∧
        time.absDate t.abs = ((Y : Int), m, d)) := by
  constructor
  · intro hn
    cases hp : ParseDate s with
    | error e => exact ⟨e, rfl⟩
    | ok t =>
      obtain ⟨Y, m, d, hcal, hs, -⟩ := wellFormed_of_parseDate s t hp
      exact absurd ⟨Y, m, d, hcal, hs⟩ hn
  · intro Y m d hcal hs
    subst hs
    refine ⟨_, parseDate_dateText Y m d hcal, rfl, Date_Unix Y m d hcal, ?_, ?_,
      absDate_Date Y m d hcal⟩
    · obtain ⟨hY, hm1, hm, hd1, hd⟩ := hcal
      unfold time.Date
      simp only [time.norm_id (0 : Int) 0 1000000000 (by omega) (by omega)]
    · rfl

theorem notADate_not_wellFormed : ¬ WellFormedDate "not-a-date" := by
  rintro ⟨Y, m, d, hcal, hs⟩
  have h1 := parseDate_dateText Y m d hcal
  rw [← hs] at h1
  have h2 : time.parseDate "not-a-date" = .error "" := rfl
  rw [h2] at h1
  exact absurd h1 (by simp)

theorem parseDate_wellFormed_witness :
    (∃ e, ParseDate "not-a-date" = .error e) ∧
    (∃ t, ParseDate "1980-10-03" = .ok t ∧
        t = time.Date 1980 10 3 0 0 0 0 time.Location.UTC ∧
        t.Unix = 86400 * unixDay 1980 10 3 ∧ t.nsec = 0 ∧ t.loc = time.Location.UTC ∧
        time.absDate t.abs = (1980, 10, 3)) ∧
    (86400 * unixDay 1980 10 3 = 339379200) :=
  ⟨(parseDate_wellFormed "not-a-date").1 notADate_not_wellFormed,
    (parseDate_wellFormed "1980-10-03").2 1980 10 3 (by decide) (by decide), by decide⟩

end gophish

namespace gophish

/-- C8: when the response has status code 200 and its body decodes into the destination
type, `do` returns no error and the decoded destination, whatever values the decoded
`error_code` and `error_message` hold: on a status of 200 only a decoding failure makes
an error. -/
theorem do_ok_of_status_200 {F α : Type} (c : Client) (env : Env F)
    (method apiPath : String) (req : query.Input) (dec : json.Dec α) (resp : α)
    (body : String)
    (hrecv : c.receives env method apiPath req 200 body)
    (hdec : (json.Unmarshal dec body resp).2 = none) :
    (c.do env method apiPath req dec resp).result =
      some (none, (json.Unmarshal dec body resp).1) := by
  rw [do_of_receives c env method apiPath req dec resp 200 body hrecv]
  simp [hdec, errors.Wrap]

theorem do_ok_of_status_200_witness :
    (testClient.do (mockEnv 200
        "\x7b\"error_code\":7,\"error_message\":\"boom\",\"response\":null\x7d")
        http.MethodGet "/setlists/latest" .nil decodeSetlistsResponse
        SetlistsResponse.zero).result =
      some (none, (json.Unmarshal decodeSetlistsResponse
        "\x7b\"error_code\":7,\"error_message\":\"boom\",\"response\":null\x7d"
        SetlistsResponse.zero).1) ∧
    (json.Unmarshal decodeSetlistsResponse
        "\x7b\"error_code\":7,\"error_message\":\"boom\",\"response\":null\x7d"
        SetlistsResponse.zero).1 = ⟨some ⟨7, "boom"⟩, none⟩ :=
  ⟨do_ok_of_status_200 testClient
      (mockEnv 200 "\x7b\"error_code\":7,\"error_message\":\"boom\",\"response\":null\x7d")
      http.MethodGet "/setlists/latest" .nil decodeSetlistsResponse SetlistsResponse.zero
      "\x7b\"error_code\":7,\"error_message\":\"boom\",\"response\":null\x7d"
      ⟨_, _, _, rfl, rfl, rfl, rfl, rfl⟩ (by decide),
    by decide⟩

/-- C9 as stated fails: on status 201, a 2xx status, `do` does not decode the body into
the destination; it decodes it as an error envelope and fails with it, leaving the
destination untouched. -/
theorem do_fails_on_status_201 :
    (testClient.do (mockEnv 201
        "\x7b\"error_code\":0,\"error_message\":null,\"response\":\x7b\"count\":0,\"data\":[]\x7d\x7d")
        http.MethodGet "/setlists/latest" .nil decodeSetlistsResponse
        SetlistsResponse.zero).result =
      some (some (Error.api ⟨0, some ⟨"", []⟩⟩), SetlistsResponse.zero) ∧
    (testClient.SetlistsLatest (mockEnv 201
        "\x7b\"error_code\":0,\"error_message\":null,\"response\":\x7b\"count\":0,\"data\":[]\x7d\x7d")).result =
      some (none, some (Error.api ⟨0, some ⟨"", []⟩⟩)) := by
  constructor <;> rfl

/-- C9, as the code has it: `do` decodes the body as an error envelope and fails with it
exactly when the status code is not 200, whether or not it is another 2xx status; when
the status code is 200 it decodes the body into the destination type, and fails only if
that decoding fails. -/
theorem do_branches_on_status_200 {F α : Type} (c : Client) (env : Env F)
    (method apiPath : String) (req : query.Input) (dec : json.Dec α) (resp : α)
    (status : Int) (body : String)
    (hrecv : c.receives env method apiPath req status body) :
    (status ≠ 200 →
      ((∃ errResp, json.Unmarshal (decodeErrorResponse env.parseFloat) body ErrorResponse.zero
            = (errResp, none) ∧
          (c.do env method apiPath req dec resp).result = some (some (.api errResp), resp)) ∨
       (∃ partialResp e, json.Unmarshal (decodeErrorResponse env.parseFloat) body
            ErrorResponse.zero = (partialResp, some e) ∧
          (c.do env method apiPath req dec resp).result =
            some (some (.wrapped (.unmarshal e) "unable to unmarshal json error"), resp)))) ∧
    (status = 200 →
      (c.do env method apiPath req dec resp).result =
        some (errors.Wrap ((json.Unmarshal dec body resp).2.map Cause.unmarshal)
          "unable to umarshal json response", (json.Unmarshal dec body resp).1)) := by
  rw [do_of_receives c env method apiPath req dec resp status body hrecv]
  constructor
  · intro hs
    rw [if_pos hs]
    cases hu : json.Unmarshal (decodeErrorResponse env.parseFloat) body ErrorResponse.zero with
    | mk r e =>
      cases e with
      | none => exact Or.inl ⟨r, rfl, rfl⟩
      | some e => exact Or.inr ⟨r, e, rfl, rfl⟩
  · intro hs
    rw [if_neg (not_not.mpr hs)]

theorem do_branches_on_status_200_witness :
    (((201 : Int) ≠ 200 →
      ((∃ errResp, json.Unmarshal (decodeErrorResponse (mockEnv 201 badKeyBody).parseFloat)
            badKeyBody ErrorResponse.zero = (errResp, none) ∧
          (testClient.do (mockEnv 201 badKeyBody) http.MethodGet "/setlists/latest" .nil
            decodeSetlistsResponse SetlistsResponse.zero).result =
              some (some (.api errResp), SetlistsResponse.zero)) ∨
       (∃ partialResp e, json.Unmarshal
            (decodeErrorResponse (mockEnv 201 badKeyBody).parseFloat) badKeyBody
            ErrorResponse.zero = (partialResp, some e) ∧
          (testClient.do (mockEnv 201 badKeyBody) http.MethodGet "/setlists/latest" .nil
            decodeSetlistsResponse SetlistsResponse.zero).result =
            some (some (.wrapped (.unmarshal e) "unable to unmarshal json error"),
              SetlistsResponse.zero)))) ∧
    ((201 : Int) = 200 →
      (testClient.do (mockEnv 201 badKeyBody) http.MethodGet "/setlists/latest" .nil
        decodeSetlistsResponse SetlistsResponse.zero).result =
        some (errors.Wrap ((json.Unmarshal decodeSetlistsResponse badKeyBody
            SetlistsResponse.zero).2.map Cause.unmarshal)
          "unable to umarshal json response",
          (json.Unmarshal decodeSetlistsResponse badKeyBody SetlistsResponse.zero).1))) :=
  do_branches_on_status_200 testClient (mockEnv 201 badKeyBody) http.MethodGet
    "/setlists/latest" .nil decodeSetlistsResponse SetlistsResponse.zero 201 badKeyBody
    ⟨_, _, _, rfl, rfl, rfl, rfl, rfl⟩

end gophish

namespace gophish

theorem do_result_ne_none {F α : Type} (c : Client) (env : Env F) (method apiPath : String)
    (req : query.Input) (dec : json.Dec α) (resp : α) (h : c.throttle ≠ none) :
    (c.do env method apiPath req dec resp).result ≠ none := by
  unfold Client.do
  cases query.Values req with
  | error e => simp
  | ok vals =>
    dsimp only
    cases http.NewRequest env.parseURL method (c.baseUrl ++ apiPath ++ "?" ++
        url.Values.Encode (url.Values.Add vals "apikey" c.apiKey)) with
    | error e => simp
    | ok hreq =>
      dsimp only
      have hdo : (c.Do env hreq).result = some (env.roundTrip hreq) := by
        unfold Client.Do
        split
        · rename_i hn
          exact absurd hn h
        · rfl
      rw [hdo]
      cases env.roundTrip hreq with
      | error e => simp
      | ok res =>
        dsimp only
        cases res.Body with
        | error e => simp
        | ok body =>
          dsimp only
          split
          · split <;> simp
          · simp

theorem returnsResponseXorError_of_do {F α : Type} (c : Client)
    (r : Run (Option (Error F) × α)) (h : c.throttle ≠ none → r.result ≠ none) :
    ReturnsResponseXorError c
      (⟨r.sent, r.result.map fun out =>
        match out.1 with
        | some err => (none, some err)
        | none => (some out.2, none)⟩ : Run (Option α × Option (Error F))) := by
  constructor
  · intro ht
    simpa using h ht
  · intro out hout
    simp only [Option.map_eq_some'] at hout
    obtain ⟨o, _, rfl⟩ := hout
    cases ho : o.1 with
    | none => exact Or.inl ⟨o.2, rfl⟩
    | some err => exact Or.inr ⟨err, rfl⟩

/-- C10: every endpoint method returns either a response together with a nil error or a
nil response together with an error, never a response alongside an error, also when the
decoding of a 200 body fails after part of the destination has been filled. -/
theorem endpoints_return_response_xor_error {F : Type} (c : Client) (env : Env F) :
    (∀ req, ReturnsResponseXorError c (c.ShowsQuery env req)) ∧
    (∀ req, ReturnsResponseXorError c (c.SetlistsGet env req)) ∧
    ReturnsResponseXorError c (c.SetlistsLatest env) ∧
    (∀ req, ReturnsResponseXorError c (c.SetlistsRecent env req)) ∧
    ReturnsResponseXorError c (c.SetlistsTiph env) ∧
    ReturnsResponseXorError c (c.SetlistsRandom env) :=
  ⟨fun _ => returnsResponseXorError_of_do c _ (do_result_ne_none c env _ _ _ _ _),
   fun _ => returnsResponseXorError_of_do c _ (do_result_ne_none c env _ _ _ _ _),
   returnsResponseXorError_of_do c _ (do_result_ne_none c env _ _ _ _ _),
   fun _ => returnsResponseXorError_of_do c _ (do_result_ne_none c env _ _ _ _ _),
   returnsResponseXorError_of_do c _ (do_result_ne_none c env _ _ _ _ _),
   returnsResponseXorError_of_do c _ (do_result_ne_none c env _ _ _ _ _)⟩

/-- A 200 body that fails to decode part-way: `do` has filled the data of the
destination when it returns the error, and `ShowsQuery` returns the error with a nil
response. -/
theorem showsQuery_half_decoded :
    (testClient.do (mockEnv 200 halfDecodedBody) http.MethodPost "/shows/query"
        (.structPtr none) decodeShowsQueryResponse ShowsQueryResponse.zero).result =
      some (some (.wrapped (.unmarshal (.mismatch ⟨"string", "int"⟩))
          "unable to umarshal json response"),
        ⟨none, some ⟨0, [some { Show.zero with ShowId := 7 }]⟩⟩) ∧
    (testClient.ShowsQuery (mockEnv 200 halfDecodedBody) none).result =
      some (none, some (.wrapped (.unmarshal (.mismatch ⟨"string", "int"⟩))
          "unable to umarshal json response")) := by
  constructor <;> rfl

end gophish

namespace fmt

/-- An operand without an `Error` method is printed by reflection after the text. -/
theorem sprintfV_reflected (before reflected : String) :
    SprintfV before ⟨none, reflected⟩ = some (before ++ reflected) := rfl

end fmt

namespace gophish

/-- C11, which the code breaks: `e.Error()` does not terminate. Each call formats `e`
with `%v`, which calls `e.Error()` again before anything is written, so for every
`ErrorResponse` value and every bound on the depth of the nested calls the call has not
returned within the bound, and no string beginning with `API Error: ` is produced. -/
theorem errorResponse_Error_never_returns {F : Type} (reflected : ErrorResponse F → String)
    (e : ErrorResponse F) :
    (∀ depth, ErrorResponse.Error reflected (depth + 1) e =
      (ErrorResponse.Error reflected depth e).map fun s => "API Error: " ++ s) ∧
    (∀ depth, ErrorResponse.Error reflected depth e = none) := by
  have hstep : ∀ depth, ErrorResponse.Error reflected (depth + 1) e =
      (ErrorResponse.Error reflected depth e).map fun s => "API Error: " ++ s :=
    fun _ => rfl
  refine ⟨hstep, ?_⟩
  intro depth
  induction depth with
  | zero => rfl
  | succ n ih => rw [hstep n, ih, Option.map_none']

/-- The failing input `ErrorResponse{ErrorCode: 3, Response: nil}`, evaluated with room
for a thousand nested calls. -/
theorem errorResponse_Error_example :
    ErrorResponse.Error (F := Unit) (fun _ => "\x7b3 <nil>\x7d") 1000 ⟨3, none⟩ = none := by
  decide!

end gophish

namespace time

end time

namespace gophish

end gophish

namespace gophish

/-- The data sequences of the two test bodies hold 5 records and 1 record. -/
theorem testBodies_data_length :
    (dataOf showsQueryTestBody).length = 5 ∧ (dataOf setlistsGetTestBody).length = 1 := by
  decide!

theorem endpoints_decode_success_envelope_witness :
    (∃ resp b, (testClient.ShowsQuery (mockEnv 200 showsQueryTestBody)
        (some { Order := "ASC", Limit := 5 })).result = some (some resp, none) ∧
      resp.Response = some b ∧ b.Count = 5 ∧ b.Data.length = 5) ∧
    (∃ resp b, (testClient.SetlistsGet (mockEnv 200 setlistsGetTestBody)
        (some { ShowId := 1250878246 })).result = some (some resp, none) ∧
      resp.Response = some b ∧ b.Count = 1 ∧ b.Data.length = 1) := by
  obtain ⟨r1, b1, h1, h2, h3, h4⟩ :=
    (endpoints_decode_success_envelope testClient (mockEnv 200 showsQueryTestBody)
      showsQueryTestBody 5 (dataOf showsQueryTestBody)).1 (some { Order := "ASC", Limit := 5 })
      ⟨_, _, _, rfl, rfl, rfl, rfl, rfl⟩
      (wellFormed_of_wellFormedB Show.schema showsQueryTestBody 0 none 5 (by decide!))
  obtain ⟨r2, b2, k1, k2, k3, k4⟩ :=
    (endpoints_decode_success_envelope testClient (mockEnv 200 setlistsGetTestBody)
      setlistsGetTestBody 1 (dataOf setlistsGetTestBody)).2 (some { ShowId := 1250878246 })
      ⟨_, _, _, rfl, rfl, rfl, rfl, rfl⟩
      (wellFormed_of_wellFormedB Setlist.schema setlistsGetTestBody 0 none 1 (by decide!))
  exact ⟨⟨r1, b1, h1, h2, h3, h4.trans testBodies_data_length.1⟩,
    ⟨r2, b2, k1, k2, k3, k4.trans testBodies_data_length.2⟩⟩

theorem do_requests_escaped_url_witness :
    (∃ ps : List (String × String),
      url.KeysAscending ps ∧
      ps.Perm (("apikey", "abc") ::
        query.declaredParams (ShowsQueryRequest.fields { Order := "ASC", Limit := 5 })) ∧
      (∀ q ∈ (testClient.do (mockEnv 200 showsQueryTestBody) http.MethodPost "/shows/query"
          (.structPtr (some (ShowsQueryRequest.fields { Order := "ASC", Limit := 5 })))
          decodeShowsQueryResponse ShowsQueryResponse.zero).sent,
        q.URL = "http://127.0.0.1:8080" ++ "/shows/query" ++ "?" ++ url.joinEscapedPairs ps) ∧
      ((mockEnv 200 showsQueryTestBody).parseURL
          ("http://127.0.0.1:8080" ++ "/shows/query" ++ "?" ++ url.joinEscapedPairs ps) = true →
        (testClient.do (mockEnv 200 showsQueryTestBody) http.MethodPost "/shows/query"
          (.structPtr (some (ShowsQueryRequest.fields { Order := "ASC", Limit := 5 })))
          decodeShowsQueryResponse ShowsQueryResponse.zero).sent =
          [⟨"POST", "http://127.0.0.1:8080" ++ "/shows/query" ++ "?" ++ url.joinEscapedPairs ps⟩])) ∧
    (testClient.ShowsQuery (mockEnv 200 showsQueryTestBody)
        (some { Order := "ASC", Limit := 5 })).sent =
      [⟨"POST", "http://127.0.0.1:8080/shows/query?apikey=abc&limit=5&order=ASC"⟩] ∧
    (testClient.SetlistsGet (mockEnv 200 setlistsGetTestBody)
        (some { ShowId := 1250878246 })).sent =
      [⟨"GET", "http://127.0.0.1:8080/setlists/get?apikey=abc&showid=1250878246"⟩] ∧
    (testClient.ShowsQuery (mockEnv 200 showsQueryTestBody)
        (some { City := "Zürich & Bern/x", State := "a€𝄞~" })).sent =
      [⟨"POST", "http://127.0.0.1:8080/shows/query?apikey=abc" ++
        "&city=Z%C3%BCrich+%26+Bern%2Fx&state=a%E2%82%AC%F0%9D%84%9E~"⟩] ∧
    url.joinEscapedPairs [("apikey", "abc"), ("city", "Zürich & Bern/x")] =
      "apikey=abc&city=Z%C3%BCrich+%26+Bern%2Fx" :=
  ⟨do_requests_escaped_url testClient (mockEnv 200 showsQueryTestBody) http.MethodPost
      "/shows/query" (ShowsQueryRequest.fields { Order := "ASC", Limit := 5 })
      decodeShowsQueryResponse ShowsQueryResponse.zero (by decide) (by decide),
    by decide!, by decide!, by decide!, by decide⟩

end gophish
